import Mathlib

/-!
Shallow embedding of the tailstream-agent core (Go) in Lean 4 and proofs
about it.  The embedding covers:

* the event normalizer (`parseLine` with its custom-format, JSON and
  access-log fallback chain), from `parser.go` and the custom-format
  revision of the parser;
* per-stream discovery (`discovery.go`: `discover`, `excluded`);
* the NDJSON shipper (`shipEvents`);
* the tailer's rotation check (`tailFile`'s 5s rotation-timer branch);
* the per-stream batching dispatch loop of `main`.

Go machine integers are modelled as `Int` (the agent only ships 64-bit
builds; overflow of `strconv` parsing is modelled explicitly as the
clamping behaviour documented for `strconv.ParseInt`).  Go `float64`
values produced by `strconv.ParseFloat` are modelled as exact decimals
(`Dec`); the model covers plain decimal literals, which is the only form
the agent's regular expressions can capture.  Fallible Go calls are
modelled with `Option`/`Except`.  I/O (the HTTP round trip, `os.Stat`,
the filesystem seen by globbing) is modelled as explicit inputs.
-/

set_option autoImplicit false
set_option linter.unusedVariables false
set_option maxRecDepth 8192

namespace Tailstream

/-! ## Decimal numbers (model of the float64 values the agent produces) -/

/-- Exact decimal number `mant * 10 ^ (-exp)`; model of the `float64`
values produced by `strconv.ParseFloat` on the plain decimal literals the
agent's patterns capture (those literals are exactly representable up to
float64 rounding, which no claim depends on). -/
structure Dec where
  mant : Int
  exp : Nat
deriving DecidableEq, Repr

/-- The decimal zero, Go's `float64` zero value. -/
def Dec.zero : Dec := ⟨0, 0⟩

/-! ## Models of `strconv` numeric parsing -/

/-- Digits-only accumulator: `some n` if the characters are one or more
decimal digits. -/
def digitsToNat : List Char → Option Nat → Option Nat
  | [], acc => acc
  | c :: cs, acc =>
    if c.isDigit then
      digitsToNat cs (some ((acc.getD 0) * 10 + (c.toNat - '0'.toNat)))
    else
      none

/-- Maximum value of Go's `int64`. -/
def int64Max : Int := 9223372036854775807

/-- Minimum value of Go's `int64`. -/
def int64Min : Int := -9223372036854775808

/-- Model of `strconv.ParseInt(s, 10, 64)` (and of `strconv.Atoi` on the
64-bit builds the agent ships): optional sign followed by one or more
digits.  On a syntax error Go returns `(0, err)`; on a range error Go
returns the clamped extreme with `ErrRange`.  The model returns the Go
result value paired with `true` when `err == nil`. -/
def signSplit (l : List Char) : Bool × List Char :=
  match l with
  | '-' :: rest => (true, rest)
  | '+' :: rest => (false, rest)
  | rest => (false, rest)

def goParseInt64 (s : String) : Int × Bool :=
  let p := signSplit s.data
  match digitsToNat p.2 none with
  | none => (0, false)
  | some n =>
    let v : Int := if p.1 then -(n : Int) else (n : Int)
    if v < int64Min then (int64Min, false)
    else if int64Max < v then (int64Max, false)
    else (v, true)

/-- Model of `strconv.Atoi` (64-bit platform): same as
`strconv.ParseInt(s, 10, 64)`. -/
def goAtoi (s : String) : Int × Bool := goParseInt64 s

/-- Model of `strconv.ParseFloat(s, 64)` restricted to the plain decimal
literals (optional sign, digits, optional fraction) that the agent's
regular expressions can capture; other syntax is a parse failure, for
which Go returns the zero value.  Values beyond float64 range cannot be
represented by `Dec`-producing inputs the claims touch and are not
modelled. -/
def goParseFloat (s : String) : Dec × Bool :=
  let p := signSplit s.data
  let intPart := p.2.takeWhile (·.isDigit)
  match p.2.dropWhile (·.isDigit) with
  | [] =>
    match digitsToNat intPart none with
    | none => (Dec.zero, false)
    | some n => (⟨if p.1 then -(n : Int) else (n : Int), 0⟩, true)
  | c :: fracRest =>
    if c = '.' && fracRest.all (·.isDigit) && !(intPart.isEmpty && fracRest.isEmpty) then
      let n := (digitsToNat (intPart ++ fracRest) (some 0)).getD 0
      (⟨if p.1 then -(n : Int) else (n : Int), fracRest.length⟩, true)
    else (Dec.zero, false)

/-! ## JSON values -/

/-- JSON values as decoded by `encoding/json` into `interface{}`:
numbers are split into integral (`int`) and fractional (`flo`) decimals
for exact modelling. -/
inductive Json where
  | null : Json
  | bool (b : Bool) : Json
  | int (n : Int) : Json
  | flo (d : Dec) : Json
  | str (s : String) : Json
  | arr (elems : List Json) : Json
  | obj (fields : List (String × Json)) : Json

/-! ## JSON decoding

Model of `json.Unmarshal(data, &m)` for `m : map[string]interface{}`:
a strict parse of one JSON value with only whitespace allowed after it;
unmarshalling into a map additionally requires the value to be an
object.  The model covers the JSON subset without `\uXXXX` escapes and
without exponent notation in numbers, which is all the claims touch;
duplicate object keys are kept in order (Go keeps the last, no claim
involves duplicates). -/

/-- Whitespace characters skipped by the JSON scanner. -/
def jsonWs (c : Char) : Bool :=
  c = ' ' || c = '\t' || c = '\n' || c = '\r'

/-- Drop leading JSON whitespace. -/
def skipWs (l : List Char) : List Char := l.dropWhile jsonWs

/-- Parse the body of a JSON string after the opening quote, returning
the decoded characters and the remainder after the closing quote. -/
def jsonStringBody : List Char → Option (List Char × List Char)
  | [] => none
  | '"' :: rest => some ([], rest)
  | '\\' :: e :: rest =>
    match (match e with
      | '"' => some '"'
      | '\\' => some '\\'
      | '/' => some '/'
      | 'b' => some (Char.ofNat 8)
      | 'f' => some (Char.ofNat 12)
      | 'n' => some '\n'
      | 'r' => some '\r'
      | 't' => some '\t'
      | _ => none) with
    | none => none
    | some c =>
      match jsonStringBody rest with
      | none => none
      | some (cs, rest') => some (c :: cs, rest')
  | c :: rest =>
    match jsonStringBody rest with
    | none => none
    | some (cs, rest') => some (c :: cs, rest')

/-- Parse a JSON number (optional minus, digits, optional fraction). -/
def parseJNumber (l : List Char) : Option (Json × List Char) :=
  let (neg, rest) := match l with
    | '-' :: r => (true, r)
    | r => (false, r)
  let ds := rest.takeWhile (·.isDigit)
  let rest' := rest.dropWhile (·.isDigit)
  match digitsToNat ds none with
  | none => none
  | some n =>
    match rest' with
    | '.' :: r2 =>
      let fs := r2.takeWhile (·.isDigit)
      let r3 := r2.dropWhile (·.isDigit)
      match digitsToNat fs none with
      | none => none
      | some f =>
        let m : Int := (n * 10 ^ fs.length + f : Nat)
        some (.flo ⟨if neg then -m else m, fs.length⟩, r3)
    | _ => some (.int (if neg then -(n : Int) else (n : Int)), rest')

mutual

/-- Parse one JSON value; `fuel` bounds recursion depth (callers pass the
input length, which suffices since every value consumes a character). -/
def parseJValue : Nat → List Char → Option (Json × List Char)
  | 0, _ => none
  | fuel + 1, l =>
    match skipWs l with
    | 'n' :: 'u' :: 'l' :: 'l' :: rest => some (.null, rest)
    | 't' :: 'r' :: 'u' :: 'e' :: rest => some (.bool true, rest)
    | 'f' :: 'a' :: 'l' :: 's' :: 'e' :: rest => some (.bool false, rest)
    | '"' :: rest =>
      match jsonStringBody rest with
      | none => none
      | some (cs, r) => some (.str (String.mk cs), r)
    | '[' :: rest =>
      match skipWs rest with
      | ']' :: r => some (.arr [], r)
      | _ =>
        match parseJElems fuel rest with
        | none => none
        | some (vs, r) => some (.arr vs, r)
    | '{' :: rest =>
      match skipWs rest with
      | '}' :: r => some (.obj [], r)
      | _ =>
        match parseJFields fuel rest with
        | none => none
        | some (fs, r) => some (.obj fs, r)
    | l' => parseJNumber l'

/-- Parse the comma-separated elements of a non-empty JSON array,
consuming the closing bracket. -/
def parseJElems : Nat → List Char → Option (List Json × List Char)
  | 0, _ => none
  | fuel + 1, l =>
    match parseJValue fuel l with
    | none => none
    | some (v, r) =>
      match skipWs r with
      | ',' :: r2 =>
        match parseJElems fuel r2 with
        | none => none
        | some (vs, r3) => some (v :: vs, r3)
      | ']' :: r2 => some ([v], r2)
      | _ => none

/-- Parse the members of a non-empty JSON object, consuming the closing
brace. -/
def parseJFields : Nat → List Char → Option (List (String × Json) × List Char)
  | 0, _ => none
  | fuel + 1, l =>
    match skipWs l with
    | '"' :: rest =>
      match jsonStringBody rest with
      | none => none
      | some (ks, r) =>
        match skipWs r with
        | ':' :: r2 =>
          match parseJValue fuel r2 with
          | none => none
          | some (v, r3) =>
            match skipWs r3 with
            | ',' :: r4 =>
              match parseJFields fuel r4 with
              | none => none
              | some (fs, r5) => some ((String.mk ks, v) :: fs, r5)
            | '}' :: r4 => some ([(String.mk ks, v)], r4)
            | _ => none
        | _ => none
    | _ => none

end

/-- Model of a strict `json.Unmarshal` of one JSON value from a line:
parse a value and require only whitespace after it. -/
def jsonDecode (s : String) : Option Json :=
  match parseJValue (s.length + 1) s.data with
  | some (v, rest) => if skipWs rest = [] then some v else none
  | none => none

/-! ## JSON rendering (model of `json.Marshal`) -/

/-- Escape one character for a JSON string literal (the characters the
agent's data can contain; `encoding/json` additionally escapes HTML
characters and other control characters, which no claim depends on). -/
def escapeChar (c : Char) : String :=
  if c = '"' then "\\\""
  else if c = '\\' then "\\\\"
  else if c = '\n' then "\\n"
  else if c = '\t' then "\\t"
  else if c = '\r' then "\\r"
  else String.mk [c]

/-- Render a JSON string literal. -/
def renderString (s : String) : String :=
  "\"" ++ String.join (s.data.map escapeChar) ++ "\""

/-- Render a decimal: the integral part, then the fractional digits. -/
def Dec.render (d : Dec) : String :=
  if d.exp = 0 then toString d.mant
  else
    let sign := if d.mant < 0 then "-" else ""
    let digits := toString d.mant.natAbs
    let digits := if digits.length ≤ d.exp then
        String.mk (List.replicate (d.exp + 1 - digits.length) '0') ++ digits
      else digits
    sign ++ digits.take (digits.length - d.exp) ++ "." ++
      digits.drop (digits.length - d.exp)

mutual

/-- Render a JSON value; model of `json.Marshal`.  Object members are
rendered in stored order (Go sorts map keys; no claim inspects the byte
order inside one serialized event). -/
def Json.render : Json → String
  | .null => "null"
  | .bool true => "true"
  | .bool false => "false"
  | .int n => toString n
  | .flo d => d.render
  | .str s => renderString s
  | .arr xs => "[" ++ renderElems xs ++ "]"
  | .obj fs => "\x7b" ++ renderFields fs ++ "\x7d"

/-- Render array elements, comma-separated. -/
def renderElems : List Json → String
  | [] => ""
  | [x] => Json.render x
  | x :: xs => Json.render x ++ "," ++ renderElems xs

/-- Render object members, comma-separated. -/
def renderFields : List (String × Json) → String
  | [] => ""
  | [(k, v)] => renderString k ++ ":" ++ Json.render v
  | (k, v) :: fs => renderString k ++ ":" ++ Json.render v ++ "," ++ renderFields fs

end

/-! ## Regular expressions

Model of the `regexp` package on the patterns the agent compiles.  Go's
`regexp` uses leftmost-first (Perl-style) match selection, which a
backtracking search reproduces: `reMatch` lists the ways a regex can
consume a prefix of the input in backtracking priority order, and a find
takes the first.  Pattern literals from the source are transcribed into
`Regex` syntax trees below. -/

/-- One item of a character class. -/
inductive ClsItem where
  | single (c : Char)
  | range (lo hi : Char)

/-- Regex syntax trees (the constructs the agent's patterns use). -/
inductive Regex where
  | eps
  | lit (c : Char)
  | any
  | cls (neg : Bool) (items : List ClsItem)
  | cat (r₁ r₂ : Regex)
  | alt (r₁ r₂ : Regex)
  | star (r : Regex)
  | group (n : Nat) (r : Regex)

/-- Does a character match a class item? -/
def clsItemMatch (c : Char) : ClsItem → Bool
  | .single d => c = d
  | .range lo hi => lo ≤ c && c ≤ hi

/-- Does a character match a (possibly negated) class? -/
def clsMatch (neg : Bool) (items : List ClsItem) (c : Char) : Bool :=
  (items.any (clsItemMatch c)) != neg

/-- Captured groups: group index paired with captured text. -/
abbrev Caps := List (Nat × String)

/-- All ways `r` can match a prefix of `s`, in backtracking priority
order (greedy repetition first), as pairs of remaining input and
captures.  `fuel` bounds the call depth (structural recursion, so the
kernel can evaluate matches); star iterations must consume input, so the
generous fuel `firstMatchAt` passes makes the search exact. -/
def reMatch : Nat → Regex → List Char → List (List Char × Caps)
  | 0, _, _ => []
  | fuel + 1, r, s =>
    match r, s with
    | .eps, s => [(s, [])]
    | .lit _, [] => []
    | .lit c, x :: xs => if x = c then [(xs, [])] else []
    | .any, [] => []
    | .any, x :: xs => if x = '\n' then [] else [(xs, [])]
    | .cls _ _, [] => []
    | .cls neg items, x :: xs => if clsMatch neg items x then [(xs, [])] else []
    | .cat r₁ r₂, s =>
      (reMatch fuel r₁ s).flatMap fun p =>
        (reMatch fuel r₂ p.1).map fun q => (q.1, p.2 ++ q.2)
    | .alt r₁ r₂, s => reMatch fuel r₁ s ++ reMatch fuel r₂ s
    | .group n r', s =>
      (reMatch fuel r' s).map fun p =>
        (p.1, p.2 ++ [(n, String.mk (s.take (s.length - p.1.length)))])
    | .star r', s =>
      ((reMatch fuel r' s).flatMap fun p =>
        if p.1.length < s.length then
          (reMatch fuel (.star r') p.1).map fun q => (q.1, p.2 ++ q.2)
        else []) ++ [(s, [])]

/-- Size of a regex tree, used to choose fuel. -/
def regexSize : Regex → Nat
  | .eps | .lit _ | .any | .cls _ _ => 1
  | .cat r₁ r₂ | .alt r₁ r₂ => regexSize r₁ + regexSize r₂ + 1
  | .star r | .group _ r => regexSize r + 1

/-- Greedy `+`: one occurrence followed by a greedy star. -/
def rplus (r : Regex) : Regex := .cat r (.star r)

/-- Concatenation of a list of regexes. -/
def rcat (l : List Regex) : Regex := l.foldr .cat .eps

/-- Literal string regex. -/
def rstr (s : String) : Regex := rcat (s.data.map .lit)

/-- A compiled Go regex: whether the pattern starts with `^`, its
number of capturing groups (`NumSubexp`), and its body. -/
structure GoRegex where
  anchored : Bool
  numGroups : Nat
  re : Regex

/-- The result of `FindStringSubmatch`: the whole match and captures. -/
structure MatchRes where
  whole : String
  caps : Caps

/-- Entry `i` of the `FindStringSubmatch` slice: the whole match at 0,
otherwise the group's captured text (empty for an absent group). -/
def MatchRes.group (m : MatchRes) (i : Nat) : String :=
  if i = 0 then m.whole else ((m.caps.lookup i).getD "")

/-- First (leftmost-first) way `r` matches at the start of `s`; the fuel
bounds the search depth, which never exceeds one regex traversal per
consumed character. -/
def firstMatchAt (r : Regex) (s : List Char) : Option (List Char × Caps) :=
  (reMatch ((s.length + 1) * (regexSize r + 2) + 1) r s).head?

/-- Search successive start offsets, leftmost first. -/
def reFindFrom (r : Regex) : List Char → Option MatchRes
  | [] => (firstMatchAt r []).map fun p => ⟨"", p.2⟩
  | c :: xs =>
    match firstMatchAt r (c :: xs) with
    | some (rest, caps) =>
      some ⟨String.mk ((c :: xs).take ((c :: xs).length - rest.length)), caps⟩
    | none => reFindFrom r xs

/-- Model of `Regexp.FindStringSubmatch` (`some` iff Go returns a
non-nil slice). -/
def GoRegex.find (gr : GoRegex) (s : String) : Option MatchRes :=
  if gr.anchored then
    match firstMatchAt gr.re s.data with
    | some (rest, caps) =>
      some ⟨String.mk (s.data.take (s.data.length - rest.length)), caps⟩
    | none => none
  else reFindFrom gr.re s.data

/-! ### The agent's patterns, transcribed -/

/-- Class `\S` (RE2: not `[\t\n\f\r ]`). -/
def clsNonSpace : Regex :=
  .cls true [.single '\t', .single '\n', .single (Char.ofNat 12), .single '\r', .single ' ']

/-- Class `\w`, `[0-9A-Za-z_]`. -/
def clsWord : Regex :=
  .cls false [.range '0' '9', .range 'A' 'Z', .range 'a' 'z', .single '_']

/-- Class `\d`. -/
def clsDigit : Regex := .cls false [.range '0' '9']

/-- Class `[^\]]`. -/
def clsNotRBracket : Regex := .cls true [.single ']']

/-- Class `[^"]`. -/
def clsNotQuote : Regex := .cls true [.single '"']

/-- Class `[0-9.]`. -/
def clsDigitDot : Regex := .cls false [.range '0' '9', .single '.']

/-- Common prefix of the three access-log patterns:
`^(\S+) \S+ \S+ \[([^\]]+)\] "(\S+) ([^"]*) HTTP/[^"]*" (\d+) (\S+)`
(groups 1-6). -/
def commonLogBody : List Regex :=
  [.group 1 (rplus clsNonSpace), .lit ' ', rplus clsNonSpace, .lit ' ',
   rplus clsNonSpace, .lit ' ', .lit '[', .group 2 (rplus clsNotRBracket),
   .lit ']', .lit ' ', .lit '"', .group 3 (rplus clsNonSpace), .lit ' ',
   .group 4 (.star clsNotQuote), .lit ' ', rstr "HTTP/", .star clsNotQuote,
   .lit '"', .lit ' ', .group 5 (rplus clsDigit), .lit ' ',
   .group 6 (rplus clsNonSpace)]

/-- `commonLogRegex` from the source. -/
def commonLogRegex : GoRegex := ⟨true, 6, rcat commonLogBody⟩

/-- Suffix ` "([^"]*)" "([^"]*)"` of the combined pattern (groups 7, 8). -/
def combinedSuffix : List Regex :=
  [.lit ' ', .lit '"', .group 7 (.star clsNotQuote), .lit '"', .lit ' ',
   .lit '"', .group 8 (.star clsNotQuote), .lit '"']

/-- `combinedLogRegex` from the source. -/
def combinedLogRegex : GoRegex := ⟨true, 8, rcat (commonLogBody ++ combinedSuffix)⟩

/-- `nginxWithRTRegex` from the source: combined plus ` ([0-9.]+)`
(group 9). -/
def nginxWithRTRegex : GoRegex :=
  ⟨true, 9, rcat (commonLogBody ++ combinedSuffix ++ [.lit ' ', .group 9 (rplus clsDigitDot)])⟩

/-! ## Events

`Event` is Go's `type Event map[string]interface{}`, modelled as an
association list of JSON values; `Event.get?` is map lookup and
`Event.set` is map assignment (update the key in place or add it). -/

/-- Normalized record to send to Tailstream. -/
abbrev Event := List (String × Json)

/-- Map lookup, first matching key. -/
def Event.get? : Event → String → Option Json
  | [], _ => none
  | (k, v) :: rest, key => if k = key then some v else Event.get? rest key

/-- Map assignment: update the key in place or append it. -/
def Event.set : Event → String → Json → Event
  | [], key, val => [(key, val)]
  | (k, v) :: rest, key, val =>
    if k = key then (k, val) :: rest else (k, v) :: Event.set rest key val

/-- Association-list lookup for string-valued maps (Go `map[string]string`). -/
def lookupStr : List (String × String) → String → Option String
  | [], _ => none
  | (k, v) :: rest, key => if k = key then some v else lookupStr rest key

/-! ## Configuration (`config.go`) -/

/-- The custom log format configuration (`LogFormat` in `config.go`).
`pattern` is `some` of the compiled regex when the configured pattern
string is non-empty and compiles; `none` models the empty-pattern and
compile-failure cases, which `parseCustomFormat` rejects. -/
structure LogFormat where
  name : String
  pattern : Option GoRegex
  fields : List (String × String)
  default : List (String × Json)

/-- A destination stream (`StreamConfig` in `config.go`). -/
structure StreamConfig where
  name : String
  streamID : String
  key : String
  paths : List String
  exclude : List String
  format : Option LogFormat
  legacyURL : String

/-- `StreamConfig.GetURL` from `config.go`. -/
def StreamConfig.GetURL (sc : StreamConfig) : String :=
  if sc.legacyURL ≠ "" then sc.legacyURL
  else "https://app.tailstream.io/api/ingest/" ++ sc.streamID

/-- The parts of `Config` the core uses: the fleet-wide fallback key and
the stream list. -/
structure Config where
  key : String
  streams : List StreamConfig

/-- One line read from a file (`LogLine`). -/
structure LogLine where
  file : String
  line : String

/-! ## Normalizer, `parser.go` revision

The repository ships two revisions of the normalizer.  Namespace
`ParserGo` embeds `parser.go` (no custom formats, JSON branch also
injects `src`, access-log entries carry an `ip` field and `src` is the
file name).  Namespace `CustomFmt` below embeds the custom-format
revision, whose JSON branch injects only `host` and whose access-log
entries put the client IP in `src`. -/

namespace ParserGo

/-- A parsed access log entry (`AccessLogEntry` in `parser.go`). -/
structure AccessLogEntry where
  host : String
  path : String
  method : String
  status : Int
  rt : Dec
  bytes : Int
  src : String
  ip : String
  userAgent : String
  ts : Int

/-- The Event a parsed entry becomes through `parseLine`'s
`json.Marshal` / `json.Unmarshal` round trip: each struct field under
its JSON tag in declaration order, with the `omitempty` fields (`ip`,
`user_agent`, `ts`) dropped at their zero values. -/
def AccessLogEntry.toEvent (e : AccessLogEntry) : Event :=
  [("host", .str e.host), ("path", .str e.path), ("method", .str e.method),
   ("status", .int e.status), ("rt", .flo e.rt), ("bytes", .int e.bytes),
   ("src", .str e.src)]
  ++ (if e.ip = "" then [] else [("ip", .str e.ip)])
  ++ (if e.userAgent = "" then [] else [("user_agent", .str e.userAgent)])
  ++ (if e.ts = 0 then [] else [("ts", .int e.ts)])

/-- `parseAccessLog` from `parser.go`: try the nginx-with-response-time
pattern, the combined pattern, then the common pattern; numeric captures
go through `strconv` with the error ignored, so the entry keeps the
returned value (zero on syntax error). -/
def parseAccessLog (line filename hostname : String) : Option AccessLogEntry :=
  match nginxWithRTRegex.find line with
  | some m =>
    some { host := hostname, path := m.group 4, method := m.group 3,
           status := (goAtoi (m.group 5)).1, rt := (goParseFloat (m.group 9)).1,
           bytes := (goParseInt64 (m.group 6)).1, src := filename,
           ip := m.group 1, userAgent := m.group 8, ts := 0 }
  | none =>
  match combinedLogRegex.find line with
  | some m =>
    some { host := hostname, path := m.group 4, method := m.group 3,
           status := (goAtoi (m.group 5)).1, rt := Dec.zero,
           bytes := (goParseInt64 (m.group 6)).1, src := filename,
           ip := m.group 1, userAgent := m.group 8, ts := 0 }
  | none =>
  match commonLogRegex.find line with
  | some m =>
    some { host := hostname, path := m.group 4, method := m.group 3,
           status := (goAtoi (m.group 5)).1, rt := Dec.zero,
           bytes := (goParseInt64 (m.group 6)).1, src := filename,
           ip := m.group 1, userAgent := "", ts := 0 }
  | none => none

/-- `parseLine` from `parser.go`: JSON objects get `host` and `src`
injected when absent; otherwise fall back to the access-log parse; an
unparseable line is skipped.  (A JSON `null` line is modelled as a
non-object; the Go code would panic inserting into the nil map.) -/
def parseLine (ll : LogLine) (host : String) : Option Event :=
  match jsonDecode ll.line with
  | some (.obj m) =>
    let m := if (Event.get? m "host").isSome then m else Event.set m "host" (.str host)
    let m := if (Event.get? m "src").isSome then m else Event.set m "src" (.str ll.file)
    some m
  | _ =>
    match parseAccessLog ll.line ll.file host with
    | some entry => some entry.toEvent
    | none => none

end ParserGo

/-! ## Normalizer, custom-format revision -/

namespace CustomFmt

/-- A parsed access log entry in the custom-format revision (no `ip`
field; the client address goes into `src`). -/
structure AccessLogEntry where
  host : String
  path : String
  method : String
  status : Int
  rt : Dec
  bytes : Int
  src : String
  userAgent : String
  ts : Int

/-- The Event an entry becomes through the marshal/unmarshal round trip
(`user_agent` and `ts` are `omitempty`). -/
def AccessLogEntry.toEvent (e : AccessLogEntry) : Event :=
  [("host", .str e.host), ("path", .str e.path), ("method", .str e.method),
   ("status", .int e.status), ("rt", .flo e.rt), ("bytes", .int e.bytes),
   ("src", .str e.src)]
  ++ (if e.userAgent = "" then [] else [("user_agent", .str e.userAgent)])
  ++ (if e.ts = 0 then [] else [("ts", .int e.ts)])

/-- `parseAccessLog`, custom-format revision: same pattern order, but
`Src` is the first capture (the client address), not the file name. -/
def parseAccessLog (line filename hostname : String) : Option AccessLogEntry :=
  match nginxWithRTRegex.find line with
  | some m =>
    some { host := hostname, path := m.group 4, method := m.group 3,
           status := (goAtoi (m.group 5)).1, rt := (goParseFloat (m.group 9)).1,
           bytes := (goParseInt64 (m.group 6)).1, src := m.group 1,
           userAgent := m.group 8, ts := 0 }
  | none =>
  match combinedLogRegex.find line with
  | some m =>
    some { host := hostname, path := m.group 4, method := m.group 3,
           status := (goAtoi (m.group 5)).1, rt := Dec.zero,
           bytes := (goParseInt64 (m.group 6)).1, src := m.group 1,
           userAgent := m.group 8, ts := 0 }
  | none =>
  match commonLogRegex.find line with
  | some m =>
    some { host := hostname, path := m.group 4, method := m.group 3,
           status := (goAtoi (m.group 5)).1, rt := Dec.zero,
           bytes := (goParseInt64 (m.group 6)).1, src := m.group 1,
           userAgent := "", ts := 0 }
  | none => none

/-- Coercion of a captured value by output field name: integer for
`status` and `bytes`, floating point for `rt`, raw string otherwise or
on coercion failure. -/
def coerceField (field value : String) : Json :=
  if field = "status" then
    match goAtoi value with
    | (v, true) => .int v
    | (_, false) => .str value
  else if field = "bytes" then
    match goParseInt64 value with
    | (v, true) => .int v
    | (_, false) => .str value
  else if field = "rt" then
    match goParseFloat value with
    | (v, true) => .flo v
    | (_, false) => .str value
  else .str value

/-- Resolve one declared field: the `hostname` / `filename` placeholders,
or a numbered capture group when the name parses as a number in
`(0, len(matches))`; anything else leaves the event unchanged. -/
def applyField (m : MatchRes) (numGroups : Nat) (filename hostname : String)
    (e : Event) (field groupName : String) : Event :=
  if groupName = "hostname" then e.set field (.str hostname)
  else if groupName = "filename" then e.set field (.str filename)
  else
    match goAtoi groupName with
    | (g, true) =>
      if 0 < g ∧ g < (numGroups : Int) + 1 then
        e.set field (coerceField field (m.group g.toNat))
      else e
    | (_, false) => e

/-- The event accumulated from a format's declared default values (the
first loop of `parseCustomFormat`). -/
def defaultsEvent (format : LogFormat) : Event :=
  format.default.foldl (fun e kv => e.set kv.1 kv.2) []

/-- The field-mapping loop of `parseCustomFormat`. -/
def fieldsFold (m : MatchRes) (numGroups : Nat) (filename hostname : String)
    (fields : List (String × String)) (ev : Event) : Event :=
  fields.foldl (fun e fg => applyField m numGroups filename hostname e fg.1 fg.2) ev

/-- The `host` fallback at the end of `parseCustomFormat`: default `host`
to the hostname when unset. -/
def hostBackstop (hostname : String) (ev : Event) : Event :=
  if (ev.get? "host").isSome then ev else ev.set "host" (.str hostname)

/-- The `src` fallback at the end of `parseCustomFormat`: set `src` to
the file name only when unset and explicitly mapped to `filename`. -/
def srcBackstop (fields : List (String × String)) (filename : String) (ev : Event) :
    Event :=
  if (ev.get? "src").isSome then ev
  else
    match lookupStr fields "src" with
    | some srcMapping =>
      if srcMapping = "filename" then ev.set "src" (.str filename) else ev
    | none => ev

/-- `parseCustomFormat` from the custom-format revision: defaults first,
then the field mappings, then the `host` and `src` fallbacks. -/
def parseCustomFormat (line filename hostname : String) :
    Option LogFormat → Option Event
  | none => none
  | some format =>
    match format.pattern with
    | none => none
    | some regex =>
      match regex.find line with
      | none => none
      | some m =>
        some (srcBackstop format.fields filename
          (hostBackstop hostname
            (fieldsFold m regex.numGroups filename hostname format.fields
              (defaultsEvent format))))

/-- `parseLine` from the custom-format revision: custom format first,
then strict JSON-object decode with `host` injected when absent, then
the access-log fallback; unparseable lines are skipped. -/
def parseLine (ll : LogLine) (host : String) (customFormat : Option LogFormat) :
    Option Event :=
  match parseCustomFormat ll.line ll.file host customFormat with
  | some event => some event
  | none =>
    match jsonDecode ll.line with
    | some (.obj m) =>
      some (if (Event.get? m "host").isSome then m else Event.set m "host" (.str host))
    | _ =>
      match parseAccessLog ll.line ll.file host with
      | some entry => some entry.toEvent
      | none => none

end CustomFmt

/-! ## Discovery (`discovery.go`)

`doublestar.FilepathGlob` queries the real filesystem; the model takes
the set of existing paths as an explicit input and implements the
doublestar pattern language the agent's configurations use: `/`-separated
segments with `*`, `?` and literal characters, and `**` spanning any
number of segments. -/

/-- Single-segment wildcard match (`*`, `?`, literals); the fuel is
structural and any value above `ps.length + cs.length` is exact. -/
def segMatch : Nat → List Char → List Char → Bool
  | 0, _, _ => false
  | fuel + 1, ps, cs =>
    match ps, cs with
    | [], [] => true
    | '*' :: ps', [] => segMatch fuel ps' []
    | '*' :: ps', c :: cs' =>
      segMatch fuel ps' (c :: cs') || segMatch fuel ('*' :: ps') cs'
    | '?' :: ps', _ :: cs' => segMatch fuel ps' cs'
    | p :: ps', c :: cs' => p = c && segMatch fuel ps' cs'
    | _, _ => false

/-- Segment-list match with `**` spanning any number of segments. -/
def segsMatch : Nat → List (List Char) → List (List Char) → Bool
  | 0, _, _ => false
  | fuel + 1, ps, ss =>
    match ps, ss with
    | [], [] => true
    | [], _ :: _ => false
    | p :: ps', ss =>
      if p = ['*', '*'] then
        segsMatch fuel ps' ss ||
          (match ss with
           | [] => false
           | _ :: ss' => segsMatch fuel (p :: ps') ss')
      else
        match ss with
        | [] => false
        | s :: ss' => segMatch (p.length + s.length + 1) p s && segsMatch fuel ps' ss'

/-- Split a character list into `/`-separated segments (the behaviour of
`strings.Split` on the separator). -/
def splitSlash : List Char → List (List Char)
  | [] => [[]]
  | c :: rest =>
    if c = '/' then [] :: splitSlash rest
    else
      match splitSlash rest with
      | [] => [[c]]
      | seg :: segs => (c :: seg) :: segs

/-- Model of `doublestar.Match pattern path`. -/
def globMatch (pattern path : String) : Bool :=
  let ps := splitSlash pattern.data
  let ss := splitSlash path.data
  segsMatch (ps.length + ss.length + 1) ps ss

/-- Model of `doublestar.FilepathGlob` over an explicit filesystem. -/
def filepathGlob (pattern : String) (fs : List String) : List String :=
  fs.filter (fun p => globMatch pattern p)

/-- `excluded` from `discovery.go`. -/
def excluded (path : String) (patterns : List String) : Bool :=
  patterns.any (fun p => globMatch p path)

/-- Maps one stream's configurations to its matching files (the inner
loops of `discover`). -/
def streamFiles (stream : StreamConfig) (fs : List String) : List String :=
  stream.paths.flatMap
    (fun pattern => (filepathGlob pattern fs).filter (fun m => !excluded m stream.exclude))

/-- Maps stream configurations to their matching files
(`StreamFileMapping`). -/
structure StreamFileMapping where
  stream : StreamConfig
  files : List String

/-- `discover` from `discovery.go`: one mapping per stream with at least
one matched file, in stream order; the stream identifier is not
consulted. -/
def discover (streams : List StreamConfig) (fs : List String) : List StreamFileMapping :=
  match streams with
  | [] => []
  | stream :: rest =>
    let files := streamFiles stream fs
    (if files.isEmpty then [] else [⟨stream, files⟩]) ++ discover rest fs

/-! ## Shipper (`shipEvents`, multi-stream revision of `main.go`)

The HTTP round trip is I/O; the model takes its outcome as an input:
either a transport error or a response with status, status text and
captured body. -/

/-- Outcome of `client.Do`. -/
inductive HttpOutcome where
  | transportError (msg : String)
  | response (status : Nat) (statusText : String) (body : String)

/-- Model of `json.Marshal` on one event.  `encoding/json` cannot fail
on the JSON-representable maps the normalizer produces, so the result is
always `some`; the `Option` mirrors the `continue`-on-error in the
source loop. -/
def marshalEvent (e : Event) : Option String :=
  some (Json.render (.obj e))

/-- NDJSON body construction: the loop in `shipEvents` appending each
marshalled event and a newline to the buffer. -/
def buildNDJSON (events : List Event) : String :=
  events.foldl
    (fun buf ev =>
      match marshalEvent ev with
      | none => buf
      | some data => buf ++ data ++ "\n")
    ""

/-- Everything `shipEvents` sends: URL, content type, bearer key (stream
key, else the global key, else none) and NDJSON body. -/
structure ShipRequest where
  url : String
  contentType : String
  bearer : Option String
  body : String

/-- The request `shipEvents` builds for a stream and batch. -/
def shipRequest (stream : StreamConfig) (globalKey : String) (events : List Event) :
    ShipRequest :=
  let key := if stream.key = "" then globalKey else stream.key
  { url := stream.GetURL
    contentType := "application/x-ndjson"
    bearer := if key = "" then none else some key
    body := buildNDJSON events }

/-- `shipEvents` from the multi-stream revision of `main.go`: error when
the stream has no id; otherwise the transport error, or an error
carrying status text and captured body when the status is at least 300;
`nil` below 300. -/
def shipEvents (stream : StreamConfig) (globalKey : String) (events : List Event)
    (out : HttpOutcome) : Except String Unit :=
  if stream.streamID = "" then
    .error ("stream ID not configured for stream " ++ stream.name)
  else
    match out with
    | .transportError msg => .error msg
    | .response status statusText body =>
      if 300 ≤ status then .error ("ship: " ++ statusText ++ " - " ++ body)
      else .ok ()

/-! ## Tailer rotation check (`tailFile`, rotation-aware revision)

The tailer's per-file state: whether a file is open (`f != nil`),
whether a buffered reader exists, and the recorded `currentInode`.  The
5-second retry tick first runs the rotation check, then the reopen
attempt; `os.Stat` and `os.Open` results are explicit inputs. -/

/-- Device and inode identity of a file (`syscall.Stat_t`'s `Dev` and
`Ino`; the Go code reads only `Ino`). -/
structure FileId where
  dev : Nat
  ino : Nat
deriving DecidableEq

/-- Mutable state of one `tailFile` task: `fOpen` models `f != nil`,
`reader` models `reader != nil`, `currentInode` the recorded inode. -/
structure TailState where
  fOpen : Bool
  reader : Bool
  currentInode : Nat
deriving DecidableEq

/-- State after `os.Open` succeeds and the stat of the opened handle
reports `id`: seek to end, fresh reader, record the inode. -/
def openFile (id : FileId) : TailState :=
  { fOpen := true, reader := true, currentInode := id.ino }

/-- The reconnecting state: handle closed, reader discarded, inode
cleared. -/
def closedState : TailState :=
  { fOpen := false, reader := false, currentInode := 0 }

/-- The rotation-check block of the 5s retry tick: when a file is open,
stat the path (`stat = none` models a failed `os.Stat`); close and reset
when the stat fails or reports a different inode.  The device number is
not consulted. -/
def rotationDetect (st : TailState) (stat : Option FileId) : TailState :=
  if st.fOpen then
    match stat with
    | some id => if id.ino ≠ st.currentInode then closedState else st
    | none => closedState
  else st

/-- The reopen block of the 5s retry tick: when no file is open, try
`os.Open` (`none` models failure) and on success seek to end and record
the freshly statted identity. -/
def tryReopen (st : TailState) (openResult : Option FileId) : TailState :=
  if st.fOpen then st
  else
    match openResult with
    | some id => openFile id
    | none => st

/-- One full 5s retry tick. -/
def retryTick (st : TailState) (stat : Option FileId) (openResult : Option FileId) :
    TailState :=
  tryReopen (rotationDetect st stat) openResult

/-! ## Per-stream batching dispatcher (main loop, multi-stream revision)

The dispatch loop owns one `streamData` per stream (`streamMap`, keyed by
stream name) and reacts to two kinds of steps: a line arriving on a
stream's channel (append to that stream's batch; ship and clear at 100)
and the 2-second ticker (ship and clear every non-empty batch).  The
shipper's outcome is an input; the loop only logs it, so the state never
depends on it.  `shipped` is the observation log of `shipEvents` calls:
the stream name and the batch handed over. -/

/-- Per-stream mutable data of the dispatch loop (`streamData`). -/
structure StreamData where
  stream : StreamConfig
  batch : List Event

/-- State of the dispatch loop: the stream map (association list keyed by
stream name) and the log of shipments handed to `shipEvents`. -/
structure DispState where
  streams : List (String × StreamData)
  shipped : List (String × List Event)

/-- Lookup in the stream map. -/
def getSD : List (String × StreamData) → String → Option StreamData
  | [], _ => none
  | (k, sd) :: rest, key => if k = key then some sd else getSD rest key

/-- Update an existing entry of the stream map (insert if absent, the Go
map's assignment semantics). -/
def setSD : List (String × StreamData) → String → StreamData → List (String × StreamData)
  | [], key, sd => [(key, sd)]
  | (k, sd₀) :: rest, key, sd =>
    if k = key then (k, sd) :: rest else (k, sd₀) :: setSD rest key sd

/-- Outcome of one `shipEvents` call as the dispatch loop sees it. -/
inductive ShipResult where
  | ok
  | err (msg : String)

/-- A line arriving on stream `name`'s channel: parse it with the
stream's format; append the event to that stream's batch; when the batch
reaches 100, ship it (recording the outcome-independent hand-over) and
clear it.  The `outcome` is only logged by the loop. -/
def stepLine (host : String) (σ : DispState) (name : String) (ll : LogLine)
    (outcome : ShipResult) : DispState :=
  match getSD σ.streams name with
  | none => σ
  | some sd =>
    match CustomFmt.parseLine ll host sd.stream.format with
    | none => σ
    | some ev =>
      let b := sd.batch ++ [ev]
      if 100 ≤ b.length then
        { streams := setSD σ.streams name { sd with batch := [] },
          shipped := σ.shipped ++ [(name, b)] }
      else
        { streams := setSD σ.streams name { sd with batch := b },
          shipped := σ.shipped }

/-- The shipments one ticker pass hands to `shipEvents`: the loop over
the stream map shipping each non-empty batch. -/
def tickShip : List (String × StreamData) → List (String × List Event)
  | [] => []
  | (k, sd) :: rest =>
    (if sd.batch.isEmpty then [] else [(k, sd.batch)]) ++ tickShip rest

/-- The 2-second ticker: ship and clear every non-empty batch (clearing
an already-empty batch is the identity, so the clear is applied
uniformly).  `outcomes` gives each shipment's result, which the loop
only logs. -/
def stepTick (σ : DispState) (outcomes : String → ShipResult) : DispState :=
  { streams := σ.streams.map (fun p => (p.1, { p.2 with batch := [] })),
    shipped := σ.shipped ++ tickShip σ.streams }

/-- One step of the dispatch loop. -/
inductive DispOp where
  | line (name : String) (ll : LogLine) (outcome : ShipResult)
  | tick (outcomes : String → ShipResult)

/-- Run the dispatch loop over a sequence of steps. -/
def runDisp (host : String) (σ : DispState) : List DispOp → DispState
  | [] => σ
  | .line name ll outcome :: ops => runDisp host (stepLine host σ name ll outcome) ops
  | .tick outcomes :: ops => runDisp host (stepTick σ outcomes) ops

/-- Initial dispatch state for the discovered mappings: one entry per
stream keyed by name (map insertion, so a duplicated name overwrites),
each with an empty batch and nothing shipped. -/
def initDisp (mappings : List StreamFileMapping) : DispState :=
  { streams :=
      mappings.foldl (fun acc m => setSD acc m.stream.name ⟨m.stream, []⟩) [],
    shipped := [] }

/-- The batch the dispatcher holds for stream `name`. -/
def batchOf (σ : DispState) (name : String) : List Event :=
  match getSD σ.streams name with
  | some sd => sd.batch
  | none => []

/-- The batches shipped for stream `name`, in shipment order. -/
def shippedFor (σ : DispState) (name : String) : List (List Event) :=
  σ.shipped.filterMap (fun p => if p.1 = name then some p.2 else none)

/-- The stream configuration the dispatcher holds under `name` (the
configurations never change after `initDisp`). -/
def configOf (σ : DispState) (name : String) : Option StreamConfig :=
  (getSD σ.streams name).map (fun sd => sd.stream)

/-- The events accepted for stream `n` along a step sequence: each line
step for `n` contributes its parsed event when the stream exists and the
normalizer accepts the line. -/
def acceptedFrom (host : String) (cfg : String → Option StreamConfig) (n : String) :
    List DispOp → List Event
  | [] => []
  | .line name ll _ :: ops =>
    (if name = n then
      (match cfg n with
       | some sc => (CustomFmt.parseLine ll host sc.format).toList
       | none => [])
     else []) ++ acceptedFrom host cfg n ops
  | .tick _ :: ops => acceptedFrom host cfg n ops

/-! ## Concrete instances and spec-side predicates -/

/-- Hostname used in concrete instances. -/
def sampleHost : String := "myhost"

/-- The spec's concrete access-log input. -/
def c8Line : String :=
  "127.0.0.1 - - [22/Sep/2025:17:04:36 +0000] \"GET /x HTTP/1.1\" 200 2326"

/-- An access-log line whose byte count overflows `int64`. -/
def c8OverflowLine : String :=
  "127.0.0.1 - - [22/Sep/2025:17:04:36 +0000] \"GET /x HTTP/1.1\" 200 99999999999999999999"

/-- The compiled form of the spec's example pattern `(\w+): (.+)`. -/
def wordRestRegex : GoRegex :=
  ⟨false, 2, rcat [.group 1 (rplus clsWord), .lit ':', .lit ' ', .group 2 (rplus .any)]⟩

/-- The spec's concrete custom format: pattern `(\w+): (.+)`, fields
`method -> 1`, `path -> 2`, `host -> hostname`, no defaults. -/
def c7Format : LogFormat :=
  { name := "custom",
    pattern := some wordRestRegex,
    fields := [("method", "1"), ("path", "2"), ("host", "hostname")],
    default := [] }

/-- A format whose `host` field references capture group 5 of a
two-group pattern (an out-of-range reference), with no defaults. -/
def c10Format : LogFormat :=
  { name := "bad-group",
    pattern := some wordRestRegex,
    fields := [("host", "5")],
    default := [] }

/-- A configured stream with an empty stream id and one literal path. -/
def emptyIdStream : StreamConfig :=
  { name := "s1", streamID := "", key := "", paths := ["/var/log/app.log"],
    exclude := [], format := none, legacyURL := "" }

/-- A stream with a configured id. -/
def sampleStream : StreamConfig :=
  { name := "s2", streamID := "id1", key := "", paths := ["/var/log/app.log"],
    exclude := [], format := none, legacyURL := "" }

/-- A one-file filesystem for discovery instances. -/
def sampleFs : List String := ["/var/log/app.log"]

/-- The batch body as the spec words it: each event's independent JSON
serialization followed by a newline, concatenated in batch order. -/
def ndjsonSpec : List Event → String
  | [] => ""
  | e :: rest => Json.render (.obj e) ++ "\n" ++ ndjsonSpec rest

/-- Claim C6 as the spec words it: while a file is open, the rotation
check reconnects exactly when the path's current device+inode identity
differs from the identity recorded at the last open or the path is
gone. -/
def rotationChecksDevIno : Prop :=
  ∀ (openId : FileId) (stat : Option FileId),
    rotationDetect (openFile openId) stat = closedState ↔ stat ≠ some openId

/-- Claim C4 as the spec words it: `shipEvents` errors exactly on a
transport error or a non-2xx status. -/
def shipErrorIffNon2xx : Prop :=
  ∀ (stream : StreamConfig) (globalKey : String) (events : List Event) (out : HttpOutcome),
    (∃ msg, shipEvents stream globalKey events out = .error msg) ↔
      (match out with
       | .transportError _ => True
       | .response status _ _ => ¬(200 ≤ status ∧ status ≤ 299))

/-! ## Helper lemmas -/

@[simp]
theorem Event.get_set_self (e : Event) (k : String) (v : Json) :
    Event.get? (Event.set e k v) k = some v := by
  induction e with
  | nil => simp [Event.set, Event.get?]
  | cons p rest ih =>
    by_cases h : p.1 = k <;> simp [Event.set, Event.get?, h, ih]

theorem Event.get_set_other (e : Event) (k k' : String) (v : Json) (h : k ≠ k') :
    Event.get? (Event.set e k v) k' = Event.get? e k' := by
  induction e with
  | nil => simp [Event.set, Event.get?, h]
  | cons p rest ih =>
    by_cases hp : p.1 = k
    · simp [Event.set, Event.get?, hp, h, ih]
    · have h' : ¬(k' = k) := fun hh => h hh.symm
      by_cases hp' : p.1 = k' <;> simp [Event.set, Event.get?, hp, hp', h', ih]

end Tailstream

namespace Tailstream

/-! ## Claim C2: the JSON path of the normalizer -/

/-- C2: for every input line that decodes as a strict JSON object, the
normalizer (entered on its JSON path, i.e. without a custom format)
returns that map with `host` injected only if the key is absent, and
otherwise returns the map unmodified — no other key is added. -/
theorem c2_json_host_injection (file line host : String) (m : List (String × Json))
    (h : jsonDecode line = some (.obj m)) :
    CustomFmt.parseLine ⟨file, line⟩ host none =
      some (if (Event.get? m "host").isSome then m else Event.set m "host" (.str host)) := by
  simp only [CustomFmt.parseLine, CustomFmt.parseCustomFormat, h]

/-- Witness for C2 at the spec's concrete example `{"a":1}`. -/
theorem c2_json_host_injection_witness :
    jsonDecode "\x7b\"a\":1\x7d" = some (.obj [("a", Json.int 1)]) ∧
    CustomFmt.parseLine ⟨"/var/log/app.log", "\x7b\"a\":1\x7d"⟩ "myhost" none =
      some [("a", Json.int 1), ("host", Json.str "myhost")] :=
  ⟨rfl,
   (c2_json_host_injection "/var/log/app.log" "\x7b\"a\":1\x7d" "myhost"
      [("a", Json.int 1)] rfl).trans rfl⟩

/-! ## Claim C6: the rotation check -/

/-- C6 counterexample: with a file opened at identity (dev 1, ino 5) and
the path now reporting (dev 2, ino 5), the device+inode identity
differs, but the code compares only the inode and stays in the open
state — refuting that the check compares the device+inode identity. -/
theorem c6_rotation_ignores_device : ¬ rotationChecksDevIno := by
  intro h
  have h2 := (h ⟨1, 5⟩ (some ⟨2, 5⟩)).mpr (by decide)
  exact absurd h2 (by decide)

/-- C6 amended: on a rotation-check tick while a file is open, the
tailer compares only the path's current inode against the inode recorded
at the last open; exactly when the inode differs or the stat fails it
closes the handle, discards the reader, and enters the reconnecting
state, and otherwise the state is unchanged; with no file open the check
does nothing. -/
theorem c6_rotation_inode_only (st : TailState) (stat : Option FileId) :
    (st.fOpen = true →
      (rotationDetect st stat = closedState ↔
        (match stat with
         | none => True
         | some id => id.ino ≠ st.currentInode))) ∧
    (st.fOpen = true →
      (match stat with
       | some id => id.ino = st.currentInode
       | none => False) →
      rotationDetect st stat = st) ∧
    (st.fOpen = false → rotationDetect st stat = st) := by
  refine ⟨?_, ?_, ?_⟩
  · intro hop
    cases stat with
    | none => simp [rotationDetect, hop]
    | some id =>
      by_cases hino : id.ino = st.currentInode
      · simp only [rotationDetect, hop, if_true, hino, ne_eq, not_true_eq_false,
          if_false, ite_false]
        constructor
        · intro hst
          rw [hst] at hop
          simp [closedState] at hop
        · intro hfalse
          exact absurd hfalse (by simp)
      · simp [rotationDetect, hop, hino]
  · intro hop hino
    cases stat with
    | none => exact absurd hino (by simp)
    | some id => simp [rotationDetect, hop, hino]
  · intro hop
    simp [rotationDetect, hop]

/-- Witness for C6 amended: an inode change is detected. -/
theorem c6_rotation_inode_only_witness :
    (openFile ⟨1, 6⟩).fOpen = true ∧
    rotationDetect (openFile ⟨1, 6⟩) (some ⟨1, 7⟩) = closedState :=
  ⟨rfl, ((c6_rotation_inode_only (openFile ⟨1, 6⟩) (some ⟨1, 7⟩)).1 rfl).mpr (by decide)⟩

end Tailstream

namespace Tailstream

/-! ## Claim C4: shipEvents error behaviour -/

/-- C4 counterexample: a `101 Switching Protocols` response is not a 2xx
success status, yet `shipEvents` (whose check is `StatusCode >= 300`)
returns no error for it — refuting the claimed if-and-only-if. -/
theorem c4_1xx_treated_as_success : ¬ shipErrorIffNon2xx := by
  intro h
  obtain ⟨msg, hmsg⟩ :=
    (h sampleStream "" [] (.response 101 "101 Switching Protocols" "")).mpr (by decide)
  have hok : shipEvents sampleStream "" [] (.response 101 "101 Switching Protocols" "")
      = .ok () := rfl
  rw [hok] at hmsg
  exact Except.noConfusion hmsg

/-- C4 amended: `shipEvents` returns an error exactly when the stream id
is empty, the round trip fails with a transport error, or the response
status is at least 300 (1xx responses are treated as success); the
status error carries the status text and the captured body, the
transport error is passed through, and otherwise it returns no error. -/
theorem c4_ship_error_characterization (stream : StreamConfig) (globalKey : String)
    (events : List Event) (out : HttpOutcome) :
    ((∃ msg, shipEvents stream globalKey events out = .error msg) ↔
      (stream.streamID = "" ∨
        (match out with
         | .transportError _ => True
         | .response status _ _ => 300 ≤ status))) ∧
    (stream.streamID ≠ "" → ∀ status statusText body,
      out = .response status statusText body → 300 ≤ status →
      shipEvents stream globalKey events out =
        .error ("ship: " ++ statusText ++ " - " ++ body)) ∧
    (stream.streamID ≠ "" → ∀ msg, out = .transportError msg →
      shipEvents stream globalKey events out = .error msg) ∧
    (stream.streamID ≠ "" → ∀ status statusText body,
      out = .response status statusText body → status < 300 →
      shipEvents stream globalKey events out = .ok ()) := by
  refine ⟨?_, ?_, ?_, ?_⟩
  · by_cases hid : stream.streamID = ""
    · simp [shipEvents, hid]
    · cases out with
      | transportError msg => simp [shipEvents, hid]
      | response status statusText body =>
        by_cases hst : 300 ≤ status <;> simp [shipEvents, hid, hst]
  · intro hid status statusText body hout hst
    subst hout
    simp [shipEvents, hid, hst]
  · intro hid msg hout
    subst hout
    simp [shipEvents, hid]
  · intro hid status statusText body hout hst
    subst hout
    simp [shipEvents, hid, Nat.not_le.mpr hst]

/-- Witness for C4 amended: a 401 response yields the error with the
captured body, and a 200 response ships cleanly. -/
theorem c4_ship_error_characterization_witness :
    sampleStream.streamID ≠ "" ∧
    shipEvents sampleStream "" [] (.response 401 "401 Unauthorized" "denied") =
      .error "ship: 401 Unauthorized - denied" ∧
    shipEvents sampleStream "" [] (.response 200 "200 OK" "") = .ok () :=
  ⟨by decide,
   (c4_ship_error_characterization sampleStream "" [] (.response 401 "401 Unauthorized" "denied")).2.1
     (by decide) 401 "401 Unauthorized" "denied" rfl (by decide),
   (c4_ship_error_characterization sampleStream "" [] (.response 200 "200 OK" "")).2.2.2
     (by decide) 200 "200 OK" "" rfl (by decide)⟩

/-! ## Claim C3: streams without an identifier -/

/-- C3 counterexample: a stream whose stream id is empty but whose
pattern matches a file is still given a discovery mapping — `discover`
never consults the stream id, so the stream is not excluded at discovery
time. -/
theorem c3_discover_keeps_empty_id_stream :
    discover [emptyIdStream] sampleFs = [⟨emptyIdStream, ["/var/log/app.log"]⟩] ∧
    emptyIdStream.streamID = "" :=
  ⟨rfl, rfl⟩

/-- Helper: discovery distributes over stream-list concatenation. -/
theorem discover_append (xs ys : List StreamConfig) (fs : List String) :
    discover (xs ++ ys) fs = discover xs fs ++ discover ys fs := by
  induction xs with
  | nil => simp [discover]
  | cons x rest ih => simp [discover, ih]

/-- C3 amended: a stream with an empty stream id is not excluded at
discovery time; it is excluded from shipping because every `shipEvents`
call for it returns an error (before any request is sent), and the other
streams' discovery results are unaffected by its presence: discovery
distributes over the stream list, so removing the stream removes exactly
its own mapping. -/
theorem c3_empty_id_excluded_at_ship_time :
    (∀ (stream : StreamConfig) (globalKey : String) (events : List Event)
       (out : HttpOutcome), stream.streamID = "" →
       ∃ msg, shipEvents stream globalKey events out = .error msg) ∧
    (∀ (pre post : List StreamConfig) (bad : StreamConfig) (fs : List String),
       discover (pre ++ bad :: post) fs =
         discover pre fs ++ discover [bad] fs ++ discover post fs) := by
  constructor
  · intro stream globalKey events out hid
    exact ⟨"stream ID not configured for stream " ++ stream.name, by simp [shipEvents, hid]⟩
  · intro pre post bad fs
    rw [show bad :: post = [bad] ++ post from rfl, discover_append, discover_append,
      List.append_assoc]

/-- Witness for C3 amended at the concrete empty-id stream. -/
theorem c3_empty_id_excluded_at_ship_time_witness :
    emptyIdStream.streamID = "" ∧
    (∃ msg, shipEvents emptyIdStream "" [] (.response 200 "200 OK" "") = .error msg) ∧
    discover ([sampleStream] ++ emptyIdStream :: []) sampleFs =
      discover [sampleStream] sampleFs ++ discover [emptyIdStream] sampleFs ++
        discover [] sampleFs :=
  ⟨rfl,
   c3_empty_id_excluded_at_ship_time.1 emptyIdStream "" [] (.response 200 "200 OK" "") rfl,
   c3_empty_id_excluded_at_ship_time.2 [sampleStream] [] emptyIdStream sampleFs⟩

/-! ## Claim C9: NDJSON body construction -/

/-- Helper: the buffer loop with the marshal step reduced. -/
theorem foldl_render_eq (events : List Event) (acc : String) :
    events.foldl (fun buf ev => buf ++ Json.render (.obj ev) ++ "\n") acc
      = acc ++ ndjsonSpec events := by
  induction events generalizing acc with
  | nil => simp [ndjsonSpec]
  | cons e rest ih =>
    simp only [List.foldl]
    rw [ih]
    simp [ndjsonSpec, String.append_assoc]

/-- C9: the request body `shipEvents` posts is exactly the
concatenation, in batch order, of each event's independent JSON
serialization followed by a newline character (`ndjsonSpec`, one JSON
value per line, newline-joined with a trailing newline). -/
theorem c9_body_is_ndjson (stream : StreamConfig) (globalKey : String)
    (events : List Event) :
    (shipRequest stream globalKey events).body = ndjsonSpec events := by
  have h : (fun (buf : String) (ev : Event) =>
      match marshalEvent ev with
      | none => buf
      | some data => buf ++ data ++ "\n")
      = (fun (buf : String) (ev : Event) => buf ++ Json.render (.obj ev) ++ "\n") := by
    funext buf ev
    simp [marshalEvent]
  simp [shipRequest, buildNDJSON, h, foldl_render_eq]

end Tailstream

namespace Tailstream

/-! ## Claim C8: heuristic access-log parsing -/

/-- C8 counterexample: a byte count of twenty nines matches the bare
common-log pattern but overflows `int64`; `strconv.ParseInt` fails with
a range error yet returns the clamped maximum, which the code keeps — so
a numeric field that fails to parse does not always yield a zero
value. -/
theorem c8_overflow_bytes_not_zero :
    (ParserGo.parseAccessLog c8OverflowLine "/var/log/access.log" "myhost").map
      (fun e => e.bytes) = some int64Max ∧
    (goParseInt64 "99999999999999999999").2 = false ∧
    int64Max ≠ 0 :=
  ⟨rfl, rfl, by decide⟩

/-- C8 amended: `parseAccessLog` tries, in order, the
nginx-with-response-time pattern, the combined pattern and the bare
common-log pattern, and the first structurally matching pattern
determines the result; numeric fields keep whatever value `strconv`
returns without aborting the match — the zero value on a syntax error,
the clamped extreme on a range error (and the float zero on an `rt`
parse failure). -/
theorem c8_access_log_priority (line filename hostname : String) :
    (∀ m, nginxWithRTRegex.find line = some m →
      ParserGo.parseAccessLog line filename hostname = some
        { host := hostname, path := m.group 4, method := m.group 3,
          status := (goAtoi (m.group 5)).1, rt := (goParseFloat (m.group 9)).1,
          bytes := (goParseInt64 (m.group 6)).1, src := filename,
          ip := m.group 1, userAgent := m.group 8, ts := 0 }) ∧
    (nginxWithRTRegex.find line = none →
      ∀ m, combinedLogRegex.find line = some m →
      ParserGo.parseAccessLog line filename hostname = some
        { host := hostname, path := m.group 4, method := m.group 3,
          status := (goAtoi (m.group 5)).1, rt := Dec.zero,
          bytes := (goParseInt64 (m.group 6)).1, src := filename,
          ip := m.group 1, userAgent := m.group 8, ts := 0 }) ∧
    (nginxWithRTRegex.find line = none → combinedLogRegex.find line = none →
      ∀ m, commonLogRegex.find line = some m →
      ParserGo.parseAccessLog line filename hostname = some
        { host := hostname, path := m.group 4, method := m.group 3,
          status := (goAtoi (m.group 5)).1, rt := Dec.zero,
          bytes := (goParseInt64 (m.group 6)).1, src := filename,
          ip := m.group 1, userAgent := "", ts := 0 }) ∧
    (nginxWithRTRegex.find line = none → combinedLogRegex.find line = none →
      commonLogRegex.find line = none →
      ParserGo.parseAccessLog line filename hostname = none) ∧
    (∀ s, (goParseInt64 s).2 = false →
      (goParseInt64 s).1 = 0 ∨ (goParseInt64 s).1 = int64Max ∨
        (goParseInt64 s).1 = int64Min) ∧
    (∀ s, (goParseFloat s).2 = false → (goParseFloat s).1 = Dec.zero) := by
  refine ⟨?_, ?_, ?_, ?_, ?_, ?_⟩
  · intro m hm
    simp [ParserGo.parseAccessLog, hm]
  · intro h₁ m hm
    simp [ParserGo.parseAccessLog, h₁, hm]
  · intro h₁ h₂ m hm
    simp [ParserGo.parseAccessLog, h₁, h₂, hm]
  · intro h₁ h₂ h₃
    simp [ParserGo.parseAccessLog, h₁, h₂, h₃]
  · intro s hs
    unfold goParseInt64 at hs ⊢
    cases hd : digitsToNat (signSplit s.data).2 none with
    | none => simp [hd]
    | some n =>
      simp only [hd] at hs ⊢
      split_ifs at hs ⊢ <;> simp_all
  · intro s hs
    unfold goParseFloat at hs ⊢
    cases hrest : (signSplit s.data).2.dropWhile (·.isDigit) with
    | nil =>
      simp only [hrest] at hs ⊢
      cases hd : digitsToNat ((signSplit s.data).2.takeWhile (·.isDigit)) none with
      | none => simp [hd]
      | some n => simp [hd] at hs
    | cons c fracRest =>
      simp only [hrest] at hs ⊢
      split_ifs at hs ⊢
      simp_all

end Tailstream

namespace Tailstream

/-- Witness for C8 amended at the spec's concrete input: the common-log
fallback yields status 200, bytes 2326, method GET, path /x. -/
theorem c8_access_log_priority_witness :
    (ParserGo.parseAccessLog c8Line "/var/log/access.log" "myhost").map
      (fun e => (e.status, e.bytes, e.method, e.path)) =
      some (200, 2326, "GET", "/x") := by
  have h := (c8_access_log_priority c8Line "/var/log/access.log" "myhost").2.2.1 rfl rfl
    ⟨"127.0.0.1 - - [22/Sep/2025:17:04:36 +0000] \"GET /x HTTP/1.1\" 200 2326",
     [(1, "127.0.0.1"), (2, "22/Sep/2025:17:04:36 +0000"), (3, "GET"), (4, "/x"),
      (5, "200"), (6, "2326")]⟩ rfl
  rw [h]
  rfl

end Tailstream

namespace Tailstream

namespace CustomFmt

/-! ## Lemmas about the custom-format pipeline -/

theorem applyField_get_other (m : MatchRes) (ng : Nat) (fn hn : String) (e : Event)
    (field g k : String) (h : field ≠ k) :
    Event.get? (applyField m ng fn hn e field g) k = Event.get? e k := by
  unfold applyField
  split_ifs with h1 h2
  · exact Event.get_set_other e field k _ h
  · exact Event.get_set_other e field k _ h
  · rcases hga : goAtoi g with ⟨gi, ok⟩
    cases ok with
    | false => simp [hga]
    | true =>
      simp only [hga]
      split_ifs with h3
      · exact Event.get_set_other e field k _ h
      · rfl

theorem applyField_hostname (m : MatchRes) (ng : Nat) (fn hn : String) (e : Event)
    (field : String) :
    applyField m ng fn hn e field "hostname" = e.set field (.str hn) := by
  simp [applyField]

theorem applyField_filename (m : MatchRes) (ng : Nat) (fn hn : String) (e : Event)
    (field : String) :
    applyField m ng fn hn e field "filename" = e.set field (.str fn) := by
  simp [applyField]

theorem applyField_numeric (m : MatchRes) (ng : Nat) (fn hn : String) (e : Event)
    (field g : String) (gi : Int)
    (hhn : g ≠ "hostname") (hfn : g ≠ "filename")
    (hga : goAtoi g = (gi, true)) (h0 : 0 < gi) (hlt : gi < (ng : Int) + 1) :
    applyField m ng fn hn e field g = e.set field (coerceField field (m.group gi.toNat)) := by
  simp [applyField, hhn, hfn, hga, h0, hlt]

theorem applyField_invalid (m : MatchRes) (ng : Nat) (fn hn : String) (e : Event)
    (field g : String)
    (hhn : g ≠ "hostname") (hfn : g ≠ "filename")
    (hbad : (goAtoi g).2 = false ∨
      ¬(0 < (goAtoi g).1 ∧ (goAtoi g).1 < (ng : Int) + 1)) :
    applyField m ng fn hn e field g = e := by
  unfold applyField
  rw [if_neg hhn, if_neg hfn]
  rcases hga : goAtoi g with ⟨gi, ok⟩
  rw [hga] at hbad
  cases ok with
  | false => rfl
  | true =>
    rcases hbad with hbad | hbad
    · simp at hbad
    · simp only
      rw [if_neg hbad]

theorem fieldsFold_cons (m : MatchRes) (ng : Nat) (fn hn : String)
    (fg : String × String) (rest : List (String × String)) (ev : Event) :
    fieldsFold m ng fn hn (fg :: rest) ev =
      fieldsFold m ng fn hn rest (applyField m ng fn hn ev fg.1 fg.2) := rfl

theorem fieldsFold_append (m : MatchRes) (ng : Nat) (fn hn : String)
    (l₁ l₂ : List (String × String)) (ev : Event) :
    fieldsFold m ng fn hn (l₁ ++ l₂) ev =
      fieldsFold m ng fn hn l₂ (fieldsFold m ng fn hn l₁ ev) := by
  simp [fieldsFold, List.foldl_append]

theorem fieldsFold_get_untouched (m : MatchRes) (ng : Nat) (fn hn : String)
    (fields : List (String × String)) (ev : Event) (k : String)
    (h : ∀ fg ∈ fields, fg.1 ≠ k) :
    Event.get? (fieldsFold m ng fn hn fields ev) k = Event.get? ev k := by
  induction fields generalizing ev with
  | nil => rfl
  | cons fg rest ih =>
    rw [fieldsFold_cons, ih _ (fun x hx => h x (List.mem_cons_of_mem _ hx)),
      applyField_get_other _ _ _ _ _ _ _ _ (h fg (List.mem_cons_self _ _))]

theorem hostBackstop_get_other (hn : String) (ev : Event) (k : String) (h : k ≠ "host") :
    Event.get? (hostBackstop hn ev) k = Event.get? ev k := by
  unfold hostBackstop
  split_ifs with h1
  · rfl
  · exact Event.get_set_other ev "host" k _ (fun hh => h hh.symm)

theorem hostBackstop_get_host (hn : String) (ev : Event) :
    Event.get? (hostBackstop hn ev) "host" =
      some ((Event.get? ev "host").getD (.str hn)) := by
  unfold hostBackstop
  split_ifs with h1
  · obtain ⟨v, hv⟩ := Option.isSome_iff_exists.mp h1
    rw [hv]
    rfl
  · rw [Event.get_set_self, Option.not_isSome_iff_eq_none.mp h1]
    rfl

theorem srcBackstop_get_other (fields : List (String × String)) (fn : String)
    (ev : Event) (k : String) (h : k ≠ "src") :
    Event.get? (srcBackstop fields fn ev) k = Event.get? ev k := by
  unfold srcBackstop
  split_ifs with h1
  · rfl
  · cases hls : lookupStr fields "src" with
    | none => simp [hls]
    | some sm =>
      simp only [hls]
      split_ifs with h2
      · exact Event.get_set_other ev "src" k _ (fun hh => h hh.symm)
      · rfl

theorem backstops_get_of_isSome (fields : List (String × String)) (fn hn : String)
    (ev : Event) (field : String) (h : (Event.get? ev field).isSome) :
    Event.get? (srcBackstop fields fn (hostBackstop hn ev)) field =
      Event.get? ev field := by
  by_cases hh : field = "host"
  · subst hh
    have h2 : hostBackstop hn ev = ev := by
      unfold hostBackstop
      rw [if_pos h]
    rw [h2, srcBackstop_get_other _ _ _ _ (by decide)]
  · by_cases hs : field = "src"
    · subst hs
      have hev2 : Event.get? (hostBackstop hn ev) "src" = Event.get? ev "src" :=
        hostBackstop_get_other hn ev "src" (by decide)
      have h3 : srcBackstop fields fn (hostBackstop hn ev) = hostBackstop hn ev := by
        unfold srcBackstop
        rw [if_pos (hev2 ▸ h)]
      rw [h3, hev2]
    · rw [srcBackstop_get_other _ _ _ _ hs, hostBackstop_get_other _ _ _ hh]

end CustomFmt

end Tailstream

namespace Tailstream

namespace CustomFmt

/-- Helper: a field whose `applyField` step sets it to a value (which is
independent of the accumulated event) ends up holding that value after
the whole pipeline, provided no later field mapping names it again. -/
theorem pipeline_get_assigned (line filename hostname : String) (fmt : LogFormat)
    (regex : GoRegex) (m : MatchRes) (field g : String) (v : Json)
    (hnodup : (fmt.fields.map Prod.fst).Nodup)
    (hmem : (field, g) ∈ fmt.fields)
    (happ : ∀ e : Event,
      applyField m regex.numGroups filename hostname e field g = e.set field v) :
    Event.get? (srcBackstop fmt.fields filename
      (hostBackstop hostname
        (fieldsFold m regex.numGroups filename hostname fmt.fields
          (defaultsEvent fmt)))) field = some v := by
  obtain ⟨l₁, l₂, hsplit⟩ := List.append_of_mem hmem
  have hnd₂ : (((field, g) :: l₂).map Prod.fst).Nodup := by
    rw [hsplit, List.map_append] at hnodup
    exact hnodup.of_append_right
  have hnot : ∀ fg ∈ l₂, fg.1 ≠ field := by
    intro fg hfg heq
    have hmm : field ∈ l₂.map Prod.fst := heq ▸ List.mem_map_of_mem Prod.fst hfg
    exact (List.nodup_cons.mp hnd₂).1 hmm
  have hfold : Event.get? (fieldsFold m regex.numGroups filename hostname fmt.fields
      (defaultsEvent fmt)) field = some v := by
    rw [hsplit, show (field, g) :: l₂ = [(field, g)] ++ l₂ from rfl,
      ← List.append_assoc, fieldsFold_append,
      fieldsFold_get_untouched _ _ _ _ _ _ _ hnot, fieldsFold_append, fieldsFold_cons]
    simp only [fieldsFold, List.foldl_nil, happ]
    exact Event.get_set_self _ _ _
  rw [backstops_get_of_isSome _ _ _ _ _ (by rw [hfold]; rfl), hfold]

end CustomFmt

/-! ## Claim C7: custom-format parsing -/

/-- C7: on a line matching a stream's custom format, the event applies
the declared default values first and lets real captures override them:
a field mapped to a valid numbered group holds the capture coerced by
field name (`coerceField`: integer for status/bytes, float for rt,
silent fallback to the raw string on coercion failure), the
hostname/filename placeholders resolve accordingly, keys not named by
any field mapping keep their declared default, and `host` falls back to
the hostname when the format leaves it unset. -/
theorem c7_custom_format (line filename hostname : String) (fmt : LogFormat)
    (regex : GoRegex) (m : MatchRes)
    (hpat : fmt.pattern = some regex)
    (hm : regex.find line = some m)
    (hnodup : (fmt.fields.map Prod.fst).Nodup) :
    ∃ ev, CustomFmt.parseCustomFormat line filename hostname (some fmt) = some ev ∧
      (∀ field g gi, (field, g) ∈ fmt.fields → g ≠ "hostname" → g ≠ "filename" →
        goAtoi g = (gi, true) → 0 < gi → gi < (regex.numGroups : Int) + 1 →
        Event.get? ev field = some (CustomFmt.coerceField field (m.group gi.toNat))) ∧
      (∀ field, (field, "hostname") ∈ fmt.fields →
        Event.get? ev field = some (.str hostname)) ∧
      (∀ field, (field, "filename") ∈ fmt.fields →
        Event.get? ev field = some (.str filename)) ∧
      (∀ k, (∀ fg ∈ fmt.fields, fg.1 ≠ k) → k ≠ "host" → k ≠ "src" →
        Event.get? ev k = Event.get? (CustomFmt.defaultsEvent fmt) k) ∧
      ((∀ fg ∈ fmt.fields, fg.1 ≠ "host") →
        Event.get? (CustomFmt.defaultsEvent fmt) "host" = none →
        Event.get? ev "host" = some (.str hostname)) := by
  refine ⟨CustomFmt.srcBackstop fmt.fields filename
    (CustomFmt.hostBackstop hostname
      (CustomFmt.fieldsFold m regex.numGroups filename hostname fmt.fields
        (CustomFmt.defaultsEvent fmt))), ?_, ?_, ?_, ?_, ?_, ?_⟩
  · simp [CustomFmt.parseCustomFormat, hpat, hm]
  · intro field g gi hmem hhn hfn hga h0 hlt
    exact CustomFmt.pipeline_get_assigned line filename hostname fmt regex m field g _
      hnodup hmem
      (fun e => CustomFmt.applyField_numeric m regex.numGroups filename hostname e
        field g gi hhn hfn hga h0 hlt)
  · intro field hmem
    exact CustomFmt.pipeline_get_assigned line filename hostname fmt regex m field
      "hostname" _ hnodup hmem
      (fun e => CustomFmt.applyField_hostname m regex.numGroups filename hostname e field)
  · intro field hmem
    exact CustomFmt.pipeline_get_assigned line filename hostname fmt regex m field
      "filename" _ hnodup hmem
      (fun e => CustomFmt.applyField_filename m regex.numGroups filename hostname e field)
  · intro k hk hkh hks
    rw [CustomFmt.srcBackstop_get_other _ _ _ _ hks,
      CustomFmt.hostBackstop_get_other _ _ _ hkh,
      CustomFmt.fieldsFold_get_untouched _ _ _ _ _ _ _ hk]
  · intro hnoHost hdef
    have h1 : Event.get? (CustomFmt.fieldsFold m regex.numGroups filename hostname
        fmt.fields (CustomFmt.defaultsEvent fmt)) "host" = none := by
      rw [CustomFmt.fieldsFold_get_untouched _ _ _ _ _ _ _ hnoHost, hdef]
    rw [CustomFmt.srcBackstop_get_other _ _ _ _ (by decide),
      CustomFmt.hostBackstop_get_host, h1]
    rfl

end Tailstream

namespace Tailstream

/-- Witness for C7 at the spec's concrete example: pattern
`(\w+): (.+)` with fields method/path/host on `INFO: started`. -/
theorem c7_custom_format_witness :
    ∃ ev, CustomFmt.parseCustomFormat "INFO: started" "/var/log/app.log" "myhost"
        (some c7Format) = some ev ∧
      Event.get? ev "method" = some (.str "INFO") ∧
      Event.get? ev "path" = some (.str "started") ∧
      Event.get? ev "host" = some (.str "myhost") := by
  obtain ⟨ev, hev, hnum, hhost, hfile, hdef, hback⟩ :=
    c7_custom_format "INFO: started" "/var/log/app.log" "myhost" c7Format wordRestRegex
      ⟨"INFO: started", [(1, "INFO"), (2, "started")]⟩ rfl rfl (by decide)
  refine ⟨ev, hev, ?_, ?_, ?_⟩
  · exact (hnum "method" "1" 1 (by decide) (by decide) (by decide) rfl (by decide)
      (by decide)).trans rfl
  · exact (hnum "path" "2" 2 (by decide) (by decide) (by decide) rfl (by decide)
      (by decide)).trans rfl
  · exact (hhost "host" (by decide)).trans rfl

/-- Association-list lookup finds the value of a present key when the
keys are distinct. -/
theorem lookupStr_eq_of_mem_nodup (l : List (String × String)) (k v : String)
    (hnd : (l.map Prod.fst).Nodup) (hmem : (k, v) ∈ l) :
    lookupStr l k = some v := by
  induction l with
  | nil => cases hmem
  | cons p rest ih =>
    rcases List.mem_cons.mp hmem with heq | hmem'
    · subst heq
      simp [lookupStr]
    · have hne : ¬(p.1 = k) := by
        intro heq
        exact (List.nodup_cons.mp (by simpa using hnd)).1
          (heq ▸ List.mem_map_of_mem Prod.fst hmem')
      simp only [lookupStr, if_neg hne]
      exact ih (List.nodup_cons.mp (by simpa using hnd)).2 hmem'

namespace CustomFmt

/-- Helper: the `src` fallback leaves `src` unset when it is unset and
its declared mapping is not the `filename` placeholder. -/
theorem srcBackstop_get_src_none (fields : List (String × String)) (fn : String)
    (ev : Event) (g : String)
    (hnone : Event.get? ev "src" = none)
    (hls : lookupStr fields "src" = some g) (hg : g ≠ "filename") :
    Event.get? (srcBackstop fields fn ev) "src" = none := by
  unfold srcBackstop
  simp only [hnone, Option.isSome_none, Bool.false_eq_true, if_false, hls]
  rw [if_neg hg]
  exact hnone

end CustomFmt

/-! ## Claim C10: out-of-range capture-group references -/

/-- C10 counterexample: with fields mapping `host` to out-of-range group
5 of a two-group pattern and no declared defaults, the claim says the
`host` field is omitted from the event; the code's hostname fallback
nevertheless fills it, so the resulting event is exactly
`{host: myhost}`. -/
theorem c10_host_filled_despite_invalid_group :
    CustomFmt.parseCustomFormat "INFO: started" "/var/log/app.log" "myhost"
        (some c10Format) = some [("host", Json.str "myhost")] ∧
    c10Format.fields = [("host", "5")] ∧
    c10Format.default = [] ∧
    wordRestRegex.numGroups = 2 :=
  ⟨rfl, rfl, rfl, rfl⟩

/-- C10 amended: a declared field mapped to a capture-group reference
that is not a valid index (non-numeric beyond the placeholders, zero,
negative, or greater than the number of capture groups) never fails the
parse; the field keeps its declared default value — and is omitted when
no default supplies it — except `host`, which falls back to the hostname
when left unset. -/
theorem c10_invalid_group_keeps_default (line filename hostname : String)
    (fmt : LogFormat) (regex : GoRegex) (m : MatchRes) (field g : String)
    (hpat : fmt.pattern = some regex) (hm : regex.find line = some m)
    (hnodup : (fmt.fields.map Prod.fst).Nodup)
    (hmem : (field, g) ∈ fmt.fields)
    (hhn : g ≠ "hostname") (hfn : g ≠ "filename")
    (hbad : (goAtoi g).2 = false ∨
      ¬(0 < (goAtoi g).1 ∧ (goAtoi g).1 < (regex.numGroups : Int) + 1)) :
    ∃ ev, CustomFmt.parseCustomFormat line filename hostname (some fmt) = some ev ∧
      (field ≠ "host" →
        Event.get? ev field = Event.get? (CustomFmt.defaultsEvent fmt) field) ∧
      (field = "host" → Event.get? ev "host" =
        some ((Event.get? (CustomFmt.defaultsEvent fmt) "host").getD (.str hostname))) := by
  obtain ⟨l₁, l₂, hsplit⟩ := List.append_of_mem hmem
  have hnd' := hnodup
  rw [hsplit, List.map_append] at hnd'
  have hdisj := List.disjoint_of_nodup_append hnd'
  have hnotl₁ : ∀ fg ∈ l₁, fg.1 ≠ field := by
    intro fg hfg heq
    have hmm : field ∈ l₁.map Prod.fst := heq ▸ List.mem_map_of_mem Prod.fst hfg
    exact hdisj hmm (List.mem_cons_self _ _)
  have hnd₂ := hnd'.of_append_right
  have hnotl₂ : ∀ fg ∈ l₂, fg.1 ≠ field := by
    intro fg hfg heq
    have hmm : field ∈ l₂.map Prod.fst := heq ▸ List.mem_map_of_mem Prod.fst hfg
    exact (List.nodup_cons.mp hnd₂).1 hmm
  have hfold : Event.get? (CustomFmt.fieldsFold m regex.numGroups filename hostname
      fmt.fields (CustomFmt.defaultsEvent fmt)) field =
      Event.get? (CustomFmt.defaultsEvent fmt) field := by
    rw [hsplit, show (field, g) :: l₂ = [(field, g)] ++ l₂ from rfl,
      ← List.append_assoc, CustomFmt.fieldsFold_append,
      CustomFmt.fieldsFold_get_untouched _ _ _ _ _ _ _ hnotl₂,
      CustomFmt.fieldsFold_append, CustomFmt.fieldsFold_cons]
    simp only [CustomFmt.fieldsFold, List.foldl_nil]
    rw [CustomFmt.applyField_invalid m regex.numGroups filename hostname _ field g
      hhn hfn hbad]
    exact CustomFmt.fieldsFold_get_untouched _ _ _ _ _ _ _ hnotl₁
  refine ⟨CustomFmt.srcBackstop fmt.fields filename
    (CustomFmt.hostBackstop hostname
      (CustomFmt.fieldsFold m regex.numGroups filename hostname fmt.fields
        (CustomFmt.defaultsEvent fmt))), ?_, ?_, ?_⟩
  · simp [CustomFmt.parseCustomFormat, hpat, hm]
  · intro hfh
    by_cases hfs : field = "src"
    · subst hfs
      have hev2 : Event.get? (CustomFmt.hostBackstop hostname
          (CustomFmt.fieldsFold m regex.numGroups filename hostname fmt.fields
            (CustomFmt.defaultsEvent fmt))) "src" =
          Event.get? (CustomFmt.defaultsEvent fmt) "src" := by
        rw [CustomFmt.hostBackstop_get_other _ _ _ (by decide), hfold]
      cases hdv : Event.get? (CustomFmt.defaultsEvent fmt) "src" with
      | some v =>
        have hsome : (Event.get? (CustomFmt.hostBackstop hostname
            (CustomFmt.fieldsFold m regex.numGroups filename hostname fmt.fields
              (CustomFmt.defaultsEvent fmt))) "src").isSome := by
          rw [hev2, hdv]
          rfl
        have heq : CustomFmt.srcBackstop fmt.fields filename
            (CustomFmt.hostBackstop hostname
              (CustomFmt.fieldsFold m regex.numGroups filename hostname fmt.fields
                (CustomFmt.defaultsEvent fmt))) =
            CustomFmt.hostBackstop hostname
              (CustomFmt.fieldsFold m regex.numGroups filename hostname fmt.fields
                (CustomFmt.defaultsEvent fmt)) := by
          unfold CustomFmt.srcBackstop
          rw [if_pos hsome]
        rw [heq, hev2, hdv]
      | none =>
        have hls : lookupStr fmt.fields "src" = some g :=
          lookupStr_eq_of_mem_nodup fmt.fields "src" g hnodup hmem
        rw [CustomFmt.srcBackstop_get_src_none _ _ _ g (by rw [hev2, hdv]) hls hfn]
    · rw [CustomFmt.srcBackstop_get_other _ _ _ _ hfs,
        CustomFmt.hostBackstop_get_other _ _ _ hfh, hfold]
  · intro hfh
    subst hfh
    rw [CustomFmt.srcBackstop_get_other _ _ _ _ (by decide),
      CustomFmt.hostBackstop_get_host, hfold]

/-- Witness for C10 amended at the concrete out-of-range format. -/
theorem c10_invalid_group_keeps_default_witness :
    ∃ ev, CustomFmt.parseCustomFormat "INFO: started" "/var/log/app.log" "myhost"
        (some c10Format) = some ev ∧
      Event.get? ev "host" = some (.str "myhost") := by
  obtain ⟨ev, hev, hother, hhost⟩ :=
    c10_invalid_group_keeps_default "INFO: started" "/var/log/app.log" "myhost"
      c10Format wordRestRegex ⟨"INFO: started", [(1, "INFO"), (2, "started")]⟩
      "host" "5" rfl rfl (by decide) (by decide) (by decide) (by decide)
      (Or.inr (by decide))
  exact ⟨ev, hev, (hhost rfl).trans rfl⟩

end Tailstream

namespace Tailstream

/-! ## Dispatcher lemmas -/

theorem getSD_setSD_self (ss : List (String × StreamData)) (name : String)
    (sd : StreamData) : getSD (setSD ss name sd) name = some sd := by
  induction ss with
  | nil => simp [setSD, getSD]
  | cons q rest ih =>
    obtain ⟨k, sd₀⟩ := q
    by_cases h : k = name <;> simp [setSD, getSD, h, ih]

theorem getSD_setSD_other (ss : List (String × StreamData)) (name name' : String)
    (sd : StreamData) (h : name' ≠ name) :
    getSD (setSD ss name sd) name' = getSD ss name' := by
  have h' : ¬(name = name') := fun hh => h hh.symm
  induction ss with
  | nil => simp [setSD, getSD, h']
  | cons q rest ih =>
    obtain ⟨k, sd₀⟩ := q
    by_cases hk : k = name
    · subst hk
      simp [setSD, getSD, h']
    · simp [setSD, getSD, hk, ih]

theorem mem_setSD (ss : List (String × StreamData)) (name : String)
    (sd : StreamData) (p : String × StreamData) (h : p ∈ setSD ss name sd) :
    p = (name, sd) ∨ p ∈ ss := by
  induction ss with
  | nil => simpa [setSD] using h
  | cons q rest ih =>
    obtain ⟨k, sd₀⟩ := q
    by_cases hk : k = name
    · subst hk
      simp only [setSD, if_pos rfl] at h
      rcases List.mem_cons.mp h with h | h
      · left; exact h
      · right; exact List.mem_cons_of_mem _ h
    · simp only [setSD, if_neg hk] at h
      rcases List.mem_cons.mp h with h | h
      · right; exact h ▸ List.mem_cons_self _ _
      · rcases ih h with h | h
        · left; exact h
        · right; exact List.mem_cons_of_mem _ h

theorem keys_mem_setSD (ss : List (String × StreamData)) (name : String)
    (sd : StreamData) (x : String)
    (h : x ∈ (setSD ss name sd).map Prod.fst) :
    x ∈ ss.map Prod.fst ∨ x = name := by
  obtain ⟨p, hp, hx⟩ := List.mem_map.mp h
  rcases mem_setSD ss name sd p hp with h | h
  · right; rw [← hx, h]
  · left; exact hx ▸ List.mem_map_of_mem Prod.fst h

theorem setSD_nodupKeys (ss : List (String × StreamData)) (name : String)
    (sd : StreamData) (h : (ss.map Prod.fst).Nodup) :
    ((setSD ss name sd).map Prod.fst).Nodup := by
  induction ss with
  | nil => simp [setSD]
  | cons q rest ih =>
    obtain ⟨k, sd₀⟩ := q
    have hk0 : k ∉ rest.map Prod.fst := (List.nodup_cons.mp (by simpa using h)).1
    have hrest : (rest.map Prod.fst).Nodup := (List.nodup_cons.mp (by simpa using h)).2
    by_cases hk : k = name
    · subst hk
      simpa [setSD] using (by simpa using h : (k :: rest.map Prod.fst).Nodup)
    · simp only [setSD, if_neg hk, List.map_cons]
      refine List.nodup_cons.mpr ⟨?_, ih hrest⟩
      intro hmem
      rcases keys_mem_setSD rest name sd k hmem with h' | h'
      · exact hk0 h'
      · exact hk h'

theorem getSD_map_clear (ss : List (String × StreamData)) (n : String) :
    getSD (ss.map (fun p => (p.1, { p.2 with batch := [] }))) n =
      (getSD ss n).map (fun sd => { sd with batch := [] }) := by
  induction ss with
  | nil => rfl
  | cons q rest ih =>
    obtain ⟨k, sd₀⟩ := q
    by_cases hk : k = n <;> simp [getSD, hk, ih]

theorem getSD_mem (ss : List (String × StreamData)) (n : String) (sd : StreamData)
    (h : getSD ss n = some sd) : (n, sd) ∈ ss := by
  induction ss with
  | nil => cases h
  | cons q rest ih =>
    obtain ⟨k, sd₀⟩ := q
    by_cases hk : k = n
    · subst hk
      simp [getSD] at h
      subst h
      exact List.mem_cons_self _ _
    · simp only [getSD, if_neg hk] at h
      exact List.mem_cons_of_mem _ (ih h)

end Tailstream

namespace Tailstream

/-! ## Step characterizations and invariants -/

theorem stepLine_batchOf_other (host : String) (σ : DispState) (name : String)
    (ll : LogLine) (outcome : ShipResult) (n : String) (h : n ≠ name) :
    batchOf (stepLine host σ name ll outcome) n = batchOf σ n := by
  cases hg : getSD σ.streams name with
  | none => simp [stepLine, hg]
  | some sd =>
    cases hp : CustomFmt.parseLine ll host sd.stream.format with
    | none => simp [stepLine, hg, hp]
    | some ev =>
      simp only [stepLine, hg, hp]
      split_ifs with hlen <;>
        simp [batchOf, getSD_setSD_other _ _ _ _ h]

theorem stepLine_configOf (host : String) (σ : DispState) (name : String)
    (ll : LogLine) (outcome : ShipResult) :
    configOf (stepLine host σ name ll outcome) = configOf σ := by
  funext n
  cases hg : getSD σ.streams name with
  | none => simp [stepLine, hg]
  | some sd =>
    cases hp : CustomFmt.parseLine ll host sd.stream.format with
    | none => simp [stepLine, hg, hp]
    | some ev =>
      simp only [stepLine, hg, hp]
      by_cases h : n = name
      · subst h
        split_ifs with hlen <;>
          simp [configOf, getSD_setSD_self, hg]
      · split_ifs with hlen <;>
          simp [configOf, getSD_setSD_other _ _ _ _ h]

theorem stepTick_configOf (σ : DispState) (outcomes : String → ShipResult) :
    configOf (stepTick σ outcomes) = configOf σ := by
  funext n
  simp only [stepTick, configOf, getSD_map_clear]
  cases getSD σ.streams n <;> rfl

theorem stepTick_batchOf (σ : DispState) (outcomes : String → ShipResult) (n : String) :
    batchOf (stepTick σ outcomes) n = [] := by
  simp only [stepTick, batchOf, getSD_map_clear]
  cases getSD σ.streams n <;> rfl

theorem stepLine_nodup (host : String) (σ : DispState) (name : String)
    (ll : LogLine) (outcome : ShipResult)
    (h : (σ.streams.map Prod.fst).Nodup) :
    ((stepLine host σ name ll outcome).streams.map Prod.fst).Nodup := by
  cases hg : getSD σ.streams name with
  | none => simpa [stepLine, hg] using h
  | some sd =>
    cases hp : CustomFmt.parseLine ll host sd.stream.format with
    | none => simpa [stepLine, hg, hp] using h
    | some ev =>
      simp only [stepLine, hg, hp]
      split_ifs with hlen <;> exact setSD_nodupKeys _ _ _ h

theorem stepTick_nodup (σ : DispState) (outcomes : String → ShipResult)
    (h : (σ.streams.map Prod.fst).Nodup) :
    ((stepTick σ outcomes).streams.map Prod.fst).Nodup := by
  simp only [stepTick]
  simpa using h

theorem stepLine_bounded (host : String) (σ : DispState) (name : String)
    (ll : LogLine) (outcome : ShipResult)
    (h : ∀ p ∈ σ.streams, p.2.batch.length ≤ 99) :
    ∀ p ∈ (stepLine host σ name ll outcome).streams, p.2.batch.length ≤ 99 := by
  cases hg : getSD σ.streams name with
  | none => simpa [stepLine, hg] using h
  | some sd =>
    cases hp : CustomFmt.parseLine ll host sd.stream.format with
    | none => simpa [stepLine, hg, hp] using h
    | some ev =>
      simp only [stepLine, hg, hp]
      split_ifs with hlen
      · intro p hp'
        rcases mem_setSD _ _ _ _ hp' with hp' | hp'
        · subst hp'
          simp
        · exact h p hp'
      · intro p hp'
        rcases mem_setSD _ _ _ _ hp' with hp' | hp'
        · subst hp'
          have hlt : (sd.batch ++ [ev]).length < 100 := Nat.lt_of_not_le hlen
          simpa using Nat.lt_succ_iff.mp hlt
        · exact h p hp'

theorem stepTick_bounded (σ : DispState) (outcomes : String → ShipResult)
    (h : ∀ p ∈ σ.streams, p.2.batch.length ≤ 99) :
    ∀ p ∈ (stepTick σ outcomes).streams, p.2.batch.length ≤ 99 := by
  intro p hp
  simp only [stepTick, List.mem_map] at hp
  obtain ⟨q, hq, hpq⟩ := hp
  rw [← hpq]
  simp

theorem runDisp_bounded (host : String) (ops : List DispOp) (σ : DispState)
    (h : ∀ p ∈ σ.streams, p.2.batch.length ≤ 99) :
    ∀ p ∈ (runDisp host σ ops).streams, p.2.batch.length ≤ 99 := by
  induction ops generalizing σ with
  | nil => exact h
  | cons op rest ih =>
    cases op with
    | line name ll outcome =>
      exact ih _ (stepLine_bounded host σ name ll outcome h)
    | tick outcomes =>
      exact ih _ (stepTick_bounded σ outcomes h)

theorem runDisp_nodup (host : String) (ops : List DispOp) (σ : DispState)
    (h : (σ.streams.map Prod.fst).Nodup) :
    ((runDisp host σ ops).streams.map Prod.fst).Nodup := by
  induction ops generalizing σ with
  | nil => exact h
  | cons op rest ih =>
    cases op with
    | line name ll outcome => exact ih _ (stepLine_nodup host σ name ll outcome h)
    | tick outcomes => exact ih _ (stepTick_nodup σ outcomes h)

theorem foldl_setSD_batch_empty (mappings : List StreamFileMapping)
    (acc : List (String × StreamData))
    (hacc : ∀ p ∈ acc, p.2.batch = []) (p : String × StreamData)
    (hp : p ∈ mappings.foldl (fun acc m => setSD acc m.stream.name ⟨m.stream, []⟩) acc) :
    p.2.batch = [] := by
  induction mappings generalizing acc with
  | nil => exact hacc p hp
  | cons mp rest ih =>
    refine ih _ ?_ hp
    intro q hq
    rcases mem_setSD _ _ _ _ hq with hq | hq
    · rw [hq]
    · exact hacc q hq

theorem foldl_setSD_nodup (mappings : List StreamFileMapping)
    (acc : List (String × StreamData)) (hacc : (acc.map Prod.fst).Nodup) :
    (((mappings.foldl (fun acc m => setSD acc m.stream.name ⟨m.stream, []⟩) acc)).map
      Prod.fst).Nodup := by
  induction mappings generalizing acc with
  | nil => exact hacc
  | cons mp rest ih => exact ih _ (setSD_nodupKeys _ _ _ hacc)

theorem initDisp_nodup (mappings : List StreamFileMapping) :
    ((initDisp mappings).streams.map Prod.fst).Nodup :=
  foldl_setSD_nodup mappings [] (by simp)

theorem initDisp_batchOf (mappings : List StreamFileMapping) (n : String) :
    batchOf (initDisp mappings) n = [] := by
  unfold batchOf
  cases hg : getSD (initDisp mappings).streams n with
  | none => rfl
  | some sd =>
    exact foldl_setSD_batch_empty mappings [] (by simp) (n, sd) (getSD_mem _ _ _ hg)

end Tailstream

namespace Tailstream

theorem stepLine_flush (host : String) (σ : DispState) (name : String) (ll : LogLine)
    (outcome : ShipResult) (sd : StreamData) (ev : Event)
    (hg : getSD σ.streams name = some sd)
    (hp : CustomFmt.parseLine ll host sd.stream.format = some ev) :
    ((sd.batch ++ [ev]).length = 100 →
      batchOf (stepLine host σ name ll outcome) name = [] ∧
      (stepLine host σ name ll outcome).shipped =
        σ.shipped ++ [(name, sd.batch ++ [ev])]) ∧
    ((sd.batch ++ [ev]).length < 100 →
      batchOf (stepLine host σ name ll outcome) name = sd.batch ++ [ev] ∧
      (stepLine host σ name ll outcome).shipped = σ.shipped) := by
  constructor
  · intro hlen
    have h100 : 100 ≤ (sd.batch ++ [ev]).length := hlen.ge
    simp only [stepLine, hg, hp, if_pos h100]
    exact ⟨by simp [batchOf, getSD_setSD_self], by simp⟩
  · intro hlen
    have hnot : ¬100 ≤ (sd.batch ++ [ev]).length := Nat.not_le.mpr hlen
    simp only [stepLine, hg, hp, if_neg hnot]
    exact ⟨by simp [batchOf, getSD_setSD_self], by simp⟩

theorem filterMap_tickShip_none (ss : List (String × StreamData)) (n : String)
    (h : ∀ p ∈ ss, p.1 ≠ n) :
    List.filterMap (fun p => if p.1 = n then some p.2 else none) (tickShip ss) = [] := by
  induction ss with
  | nil => rfl
  | cons q rest ih =>
    obtain ⟨k, sd⟩ := q
    have hk : ¬(k = n) := h (k, sd) (List.mem_cons_self _ _)
    have hrest := fun p hp => h p (List.mem_cons_of_mem _ hp)
    by_cases hb : sd.batch.isEmpty <;>
      simp [tickShip, hb, List.filterMap_append, hk, ih hrest]

theorem filterMap_tickShip (ss : List (String × StreamData)) (n : String)
    (hnodup : (ss.map Prod.fst).Nodup) :
    List.filterMap (fun p => if p.1 = n then some p.2 else none) (tickShip ss) =
      (match getSD ss n with
       | some sd => if sd.batch.isEmpty then [] else [sd.batch]
       | none => []) := by
  induction ss with
  | nil => rfl
  | cons q rest ih =>
    obtain ⟨k, sd⟩ := q
    have hcons : (k :: rest.map Prod.fst).Nodup := by simpa using hnodup
    have hknotin : k ∉ rest.map Prod.fst := (List.nodup_cons.mp hcons).1
    have hrest : (rest.map Prod.fst).Nodup := (List.nodup_cons.mp hcons).2
    by_cases hk : k = n
    · subst hk
      have hknot : ∀ p ∈ rest, p.1 ≠ k := by
        intro p hp heq
        exact hknotin (heq ▸ List.mem_map_of_mem Prod.fst hp)
      by_cases hb : sd.batch.isEmpty <;>
        simp [tickShip, hb, List.filterMap_append,
          filterMap_tickShip_none rest k hknot, getSD]
    · by_cases hb : sd.batch.isEmpty <;>
        simp [tickShip, hb, List.filterMap_append, hk, ih hrest, getSD]

theorem stepTick_shippedFor (σ : DispState) (outcomes : String → ShipResult) (n : String)
    (hnodup : (σ.streams.map Prod.fst).Nodup) :
    shippedFor (stepTick σ outcomes) n =
      shippedFor σ n ++
        (if (batchOf σ n).isEmpty then [] else [batchOf σ n]) := by
  simp only [stepTick, shippedFor, List.filterMap_append]
  rw [filterMap_tickShip σ.streams n hnodup]
  unfold batchOf
  cases hg : getSD σ.streams n with
  | none => simp
  | some sd => rfl

end Tailstream

namespace Tailstream

theorem stepLine_shippedFor_other (host : String) (σ : DispState) (name : String)
    (ll : LogLine) (outcome : ShipResult) (n : String) (h : name ≠ n) :
    shippedFor (stepLine host σ name ll outcome) n = shippedFor σ n := by
  cases hg : getSD σ.streams name with
  | none => simp [stepLine, hg]
  | some sd =>
    cases hp : CustomFmt.parseLine ll host sd.stream.format with
    | none => simp [stepLine, hg, hp]
    | some ev =>
      by_cases hlen : 100 ≤ (sd.batch ++ [ev]).length
      · simp only [stepLine, hg, hp, if_pos hlen]
        simp [shippedFor, List.filterMap_append, h]
      · simp only [stepLine, hg, hp, if_neg hlen]
        rfl

theorem runDisp_conservation (host : String) (ops : List DispOp) (σ : DispState)
    (n : String) (hnodup : (σ.streams.map Prod.fst).Nodup) :
    (shippedFor (runDisp host σ ops) n).flatten ++ batchOf (runDisp host σ ops) n =
      (shippedFor σ n).flatten ++ batchOf σ n ++
        acceptedFrom host (configOf σ) n ops := by
  induction ops generalizing σ with
  | nil => simp [runDisp, acceptedFrom]
  | cons op rest ih =>
    cases op with
    | line name ll outcome =>
      have hnodup' := stepLine_nodup host σ name ll outcome hnodup
      have hrec := ih (stepLine host σ name ll outcome) hnodup'
      have hcfg := stepLine_configOf host σ name ll outcome
      have hhead : (shippedFor (stepLine host σ name ll outcome) n).flatten ++
          batchOf (stepLine host σ name ll outcome) n =
          (shippedFor σ n).flatten ++ batchOf σ n ++
            (if name = n then
              (match configOf σ n with
               | some sc => (CustomFmt.parseLine ll host sc.format).toList
               | none => [])
             else []) := by
        by_cases hnn : name = n
        · subst hnn
          cases hg : getSD σ.streams name with
          | none =>
            have hid : stepLine host σ name ll outcome = σ := by simp [stepLine, hg]
            simp [hid, configOf, hg]
          | some sd =>
            have hcfgn : configOf σ name = some sd.stream := by simp [configOf, hg]
            cases hp : CustomFmt.parseLine ll host sd.stream.format with
            | none =>
              have hid : stepLine host σ name ll outcome = σ := by
                simp [stepLine, hg, hp]
              simp [hid, hcfgn, hp]
            | some ev =>
              by_cases hlen : 100 ≤ (sd.batch ++ [ev]).length
              · simp only [stepLine, hg, hp, if_pos hlen]
                simp [shippedFor, List.filterMap_append, batchOf, getSD_setSD_self,
                  hcfgn, hp, hg, List.append_assoc]
              · simp only [stepLine, hg, hp, if_neg hlen]
                simp [shippedFor, batchOf, getSD_setSD_self, hcfgn, hp, hg,
                  List.append_assoc]
        · rw [if_neg hnn, List.append_nil,
            stepLine_batchOf_other host σ name ll outcome n (fun hh => hnn hh.symm),
            stepLine_shippedFor_other host σ name ll outcome n hnn]
      show (shippedFor (runDisp host (stepLine host σ name ll outcome) rest) n).flatten ++
          batchOf (runDisp host (stepLine host σ name ll outcome) rest) n = _
      rw [hrec, hcfg]
      simp only [acceptedFrom]
      rw [hhead]
      simp [List.append_assoc]
    | tick outcomes =>
      have hnodup' := stepTick_nodup σ outcomes hnodup
      have hrec := ih (stepTick σ outcomes) hnodup'
      show (shippedFor (runDisp host (stepTick σ outcomes) rest) n).flatten ++
          batchOf (runDisp host (stepTick σ outcomes) rest) n = _
      rw [hrec, stepTick_configOf]
      simp only [acceptedFrom]
      rw [stepTick_batchOf, stepTick_shippedFor σ outcomes n hnodup]
      by_cases hb : (batchOf σ n).isEmpty
      · have hnil : batchOf σ n = [] := by
          cases hbb : batchOf σ n with
          | nil => rfl
          | cons x xs =>
            rw [hbb] at hb
            simp [List.isEmpty] at hb
        simp [hb, hnil]
      · simp [hb, List.append_assoc]

end Tailstream

namespace Tailstream

/-! ## Claim C1: per-stream batching bounds and flush points -/

/-- C1: along any run of the dispatch loop from the discovered initial
state, every stream's pending batch holds at most 99 events after each
step, so no batch ever exceeds 100 entries (100 is reached only
transiently inside the step that immediately flushes it); a line step
touches only its own stream's batch and shipments; an appended event
flushes its stream's batch (handing over exactly that batch and emptying
it) exactly when the batch reaches 100; and the 2-second ticker
(modelled by tick steps) flushes exactly the non-empty batches,
emptying every batch. -/
theorem c1_batching (host : String) (mappings : List StreamFileMapping)
    (ops : List DispOp) (σ : DispState)
    (hσ : σ = runDisp host (initDisp mappings) ops) :
    (∀ p ∈ σ.streams, p.2.batch.length ≤ 99) ∧
    (∀ name ll outcome n, n ≠ name →
      batchOf (stepLine host σ name ll outcome) n = batchOf σ n ∧
      shippedFor (stepLine host σ name ll outcome) n = shippedFor σ n) ∧
    (∀ name ll outcome sd ev,
      getSD σ.streams name = some sd →
      CustomFmt.parseLine ll host sd.stream.format = some ev →
      (((sd.batch ++ [ev]).length = 100 →
        batchOf (stepLine host σ name ll outcome) name = [] ∧
        (stepLine host σ name ll outcome).shipped =
          σ.shipped ++ [(name, sd.batch ++ [ev])]) ∧
      ((sd.batch ++ [ev]).length < 100 →
        batchOf (stepLine host σ name ll outcome) name = sd.batch ++ [ev] ∧
        (stepLine host σ name ll outcome).shipped = σ.shipped))) ∧
    (∀ outcomes n,
      batchOf (stepTick σ outcomes) n = [] ∧
      shippedFor (stepTick σ outcomes) n =
        shippedFor σ n ++
          (if (batchOf σ n).isEmpty then [] else [batchOf σ n])) := by
  subst hσ
  have hinit : ∀ p ∈ (initDisp mappings).streams, p.2.batch.length ≤ 99 := by
    intro p hp
    simp only [initDisp] at hp
    have h0 := foldl_setSD_batch_empty mappings [] (by simp) p hp
    simp [h0]
  refine ⟨runDisp_bounded host ops _ hinit, ?_, ?_, ?_⟩
  · intro name ll outcome n hn
    exact ⟨stepLine_batchOf_other host _ name ll outcome n hn,
      stepLine_shippedFor_other host _ name ll outcome n (fun hh => hn hh.symm)⟩
  · intro name ll outcome sd ev hg hp
    exact stepLine_flush host _ name ll outcome sd ev hg hp
  · intro outcomes n
    exact ⟨stepTick_batchOf _ outcomes n,
      stepTick_shippedFor _ outcomes n
        (runDisp_nodup host ops _ (initDisp_nodup mappings))⟩

/-- Witness for C1: concrete bound and tick behaviour on a one-stream
run. -/
theorem c1_batching_witness :
    batchOf (stepTick (runDisp "myhost"
        (initDisp [⟨sampleStream, ["/var/log/app.log"]⟩]) [])
      (fun _ => ShipResult.ok)) "s2" = [] ∧
    shippedFor (stepTick (runDisp "myhost"
        (initDisp [⟨sampleStream, ["/var/log/app.log"]⟩]) [])
      (fun _ => ShipResult.ok)) "s2" =
      shippedFor (runDisp "myhost"
        (initDisp [⟨sampleStream, ["/var/log/app.log"]⟩]) []) "s2" ++
        (if (batchOf (runDisp "myhost"
            (initDisp [⟨sampleStream, ["/var/log/app.log"]⟩]) []) "s2").isEmpty
          then []
          else [batchOf (runDisp "myhost"
            (initDisp [⟨sampleStream, ["/var/log/app.log"]⟩]) []) "s2"]) :=
  (c1_batching "myhost" [⟨sampleStream, ["/var/log/app.log"]⟩] [] _ rfl).2.2.2
    (fun _ => ShipResult.ok) "s2"

/-! ## Claim C5: unconditional clearing, no retry or requeue -/

/-- C5: for every flush of a stream's batch, the batch is cleared
unconditionally: the dispatch state does not depend on the shipper's
outcome at all (for line-triggered flushes and for ticker flushes), a
ticker pass empties every batch, and along any run from the initial
state the shipped batches followed by the pending batch are exactly the
accepted events in arrival order — so events of a failed shipment are
never retried, requeued, or present in any later batch. -/
theorem c5_flush_unconditional (host : String) (mappings : List StreamFileMapping)
    (ops : List DispOp) (σ : DispState)
    (hσ : σ = runDisp host (initDisp mappings) ops) :
    (∀ name ll o₁ o₂, stepLine host σ name ll o₁ = stepLine host σ name ll o₂) ∧
    (∀ o₁ o₂, stepTick σ o₁ = stepTick σ o₂) ∧
    (∀ outcomes n, batchOf (stepTick σ outcomes) n = []) ∧
    (∀ n, (shippedFor σ n).flatten ++ batchOf σ n =
      acceptedFrom host (configOf (initDisp mappings)) n ops) := by
  subst hσ
  refine ⟨fun name ll o₁ o₂ => rfl, fun o₁ o₂ => rfl,
    fun outcomes n => stepTick_batchOf _ outcomes n, ?_⟩
  intro n
  have h := runDisp_conservation host ops (initDisp mappings) n (initDisp_nodup mappings)
  rw [initDisp_batchOf] at h
  simpa [shippedFor, initDisp] using h

/-- Witness for C5: outcome-independence and conservation on a concrete
one-stream run. -/
theorem c5_flush_unconditional_witness :
    stepLine "myhost" (runDisp "myhost"
        (initDisp [⟨sampleStream, ["/var/log/app.log"]⟩]) [])
      "s2" ⟨"/var/log/app.log", "x"⟩ ShipResult.ok =
    stepLine "myhost" (runDisp "myhost"
        (initDisp [⟨sampleStream, ["/var/log/app.log"]⟩]) [])
      "s2" ⟨"/var/log/app.log", "x"⟩ (ShipResult.err "boom") ∧
    (shippedFor (runDisp "myhost"
        (initDisp [⟨sampleStream, ["/var/log/app.log"]⟩]) []) "s2").flatten ++
      batchOf (runDisp "myhost"
        (initDisp [⟨sampleStream, ["/var/log/app.log"]⟩]) []) "s2" =
      acceptedFrom "myhost"
        (configOf (initDisp [⟨sampleStream, ["/var/log/app.log"]⟩])) "s2" [] :=
  ⟨(c5_flush_unconditional "myhost" [⟨sampleStream, ["/var/log/app.log"]⟩] [] _ rfl).1
      "s2" ⟨"/var/log/app.log", "x"⟩ ShipResult.ok (ShipResult.err "boom"),
   (c5_flush_unconditional "myhost" [⟨sampleStream, ["/var/log/app.log"]⟩] [] _ rfl).2.2.2
      "s2"⟩

end Tailstream
